import Mathlib

/-!
Verification development for the `ai-in-a-box` cleaning pipeline
(`backend/app/cleaning/{pipeline,stock,synonyms,utils}.py`).

Modelling conventions (shallow embedding):
* A table is the spec's data model: an ordered column-label list plus rows,
  each row a mapping from column name to a dynamic value
  (string, number, or null).  Python floats are modelled as exact
  rationals; `round(x, 2)` is modelled by `round2` below.
* Dates on the invoice side are ISO strings (exactly what `parse_date`
  produces and what the tagger compares); on the stock side calendar
  days are modelled as integers and `date.isoformat()` as an injective
  rendering `isoOfDay`.
* "Never raises" is modelled by totality; the one operation of the
  pipeline that can raise in the source (`DataFrame.drop_duplicates`
  with a `subset` column that is not present raises `KeyError`) is
  modelled in the `Except` monad.
* External-library primitives that are not part of this repository
  (the `dateutil` date parser, `pd.to_datetime`) are modelled by small
  executable stand-ins, marked in their doc comments.
-/

/-- Dynamic cell value of the table data model: string, number or null.
Numbers model Python floats as exact rationals. -/
inductive Value where
  | null : Value
  | str : String → Value
  | num : ℚ → Value
deriving Repr, DecidableEq

/-- A row is a mapping from column name to value, represented as an
association list (last write wins via `Row.set`). -/
abbrev Row : Type := List (String × Value)

/-- Look a column up in a row; a missing column reads as null, matching
`Series.get` returning `None` for an absent label. -/
def Row.get : Row → String → Value
  | [], _ => .null
  | p :: ps, c => if p.1 = c then p.2 else Row.get ps c

/-- Write a column of a row (insert or overwrite). -/
def Row.set (r : Row) (c : String) (v : Value) : Row :=
  (r.filter (fun p => p.1 ≠ c)) ++ [(c, v)]

/-- Remove a column from a row. -/
def Row.erase (r : Row) (c : String) : Row :=
  r.filter (fun p => p.1 ≠ c)

/-- A table: ordered column labels plus rows (the spec's data model for
a pandas `DataFrame`). -/
structure Table where
  cols : List String
  rows : List Row
deriving Repr, DecidableEq

/-- Deep copy of a table; in the value semantics of the embedding this
is the identity (`DataFrame.copy()` yields an independent object). -/
def Table.copy (t : Table) : Table := t

/-- Write a whole column, one value per row computed from the row
(`df[c] = df.apply(f, axis=1)` / `df[c] = df[c].map(g)`); a new column
label is appended at the end, as pandas does. -/
def Table.setColByRow (t : Table) (c : String) (f : Row → Value) : Table :=
  ⟨if c ∈ t.cols then t.cols else t.cols ++ [c],
   t.rows.map (fun r => r.set c (f r))⟩

/-- Apply a cell transformation to one column in place
(`df[c] = df[c].map(g)`). -/
def Table.mapColumn (t : Table) (c : String) (g : Value → Value) : Table :=
  t.setColByRow c (fun r => g (r.get c))

/-- Create or overwrite a column with a constant value
(`df[c] = None`). -/
def Table.setColConst (t : Table) (c : String) (v : Value) : Table :=
  t.setColByRow c (fun _ => v)

/-- Drop a column (`df.drop(columns=[c], errors="ignore")`). -/
def Table.dropColumn (t : Table) (c : String) : Table :=
  ⟨t.cols.filter (fun c2 => c2 ≠ c), t.rows.map (fun r => r.erase c)⟩

/-- Column selection `df[cs]`: the rows are rebuilt to exactly the
selected labels, in order. -/
def Table.select (t : Table) (cs : List String) : Table :=
  ⟨cs, t.rows.map (fun r => cs.map (fun c => (c, r.get c)))⟩

/- ---------- string utilities (`utils.py`) ---------- -/

/-- Strip leading and trailing whitespace (`str.strip()`). -/
def trimWs (l : List Char) : List Char :=
  ((l.dropWhile Char.isWhitespace).reverse.dropWhile Char.isWhitespace).reverse

/-- Collapse every run of whitespace to a single space
(`re.sub(r"\s+", " ", ...)`). -/
def collapseWs : List Char → List Char
  | [] => []
  | [c] => if c.isWhitespace then [' '] else [c]
  | c :: d :: cs =>
    if c.isWhitespace ∧ d.isWhitespace then collapseWs (d :: cs)
    else (if c.isWhitespace then ' ' else c) :: collapseWs (d :: cs)

/-- Lowercase a string (`str.lower()`). -/
def lowerStr (s : String) : String := ⟨s.data.map Char.toLower⟩

/-- Replace spaces by underscores (`k.replace(" ", "_")`). -/
def underscoreSpaces (s : String) : String :=
  ⟨s.data.map (fun c => if c = ' ' then '_' else c)⟩

/-- `norm_header` from `utils.py`: strip, lowercase, collapse internal
whitespace runs to single spaces. -/
def norm_header (s : String) : String :=
  ⟨collapseWs (trimWs ((s.data.map Char.toLower)))⟩

/-- First-match lookup in a literal key/value list (Python `dict.get`;
the literal tables below have distinct keys). -/
def synLookup (m : List (String × String)) (k : String) : Option String :=
  (m.find? (fun p => p.1 == k)).map (fun p => p.2)

/- ---------- typed parsers (`utils.py`) ---------- -/

/-- Numeric value of a digit list, most significant first. -/
def digitsToNat (l : List Char) : ℕ :=
  l.foldl (fun a c => 10 * a + (c.toNat - 48)) 0

/-- Python `float(s)` restricted to the alphabet that survives the
cleanup in `parse_number` (digits, one optional leading minus, at most
one dot; at least one digit). -/
def floatOfChars (l : List Char) : Option ℚ :=
  let p := match l with
    | '-' :: r => (true, r)
    | _ => (false, l)
  let sgn : ℚ := if p.1 then -1 else 1
  match p.2.splitOn '.' with
  | [ip] =>
    if ip ≠ [] ∧ ip.all Char.isDigit then some (sgn * digitsToNat ip) else none
  | [ip, fp] =>
    if (ip ++ fp) ≠ [] ∧ (ip ++ fp).all Char.isDigit then
      some (sgn * ((digitsToNat ip : ℚ) + (digitsToNat fp : ℚ) / (10 : ℚ) ^ fp.length))
    else none
  | _ => none

/-- `parse_number` of `utils.py` on a string: strip; if empty, null;
remove every character that is not a digit, `-`, `,` or `.`; if exactly
one comma and no dot, the comma is a decimal separator; remaining
commas are thousands separators; finally parse as a float. -/
def parseNumStr (s : String) : Option ℚ :=
  let t := trimWs s.data
  if t = [] then none
  else
    let u := t.filter (fun c => c.isDigit || c == '-' || c == ',' || c == '.')
    let u2 := if u.count ',' = 1 ∧ u.count '.' = 0 then
                u.map (fun c => if c = ',' then '.' else c)
              else u
    floatOfChars (u2.filter (fun c => c ≠ ','))

/-- `str(x)` for a cell value as used by the parsers and the fuzzy
matcher.  Floats are rendered integrally when possible; `None` renders
as Python does. -/
def pyStr : Value → String
  | .null => "None"
  | .str s => s
  | .num q => if q.den = 1 then toString q.num ++ ".0" else toString q

/-- `parse_number` lifted to cell values.  `None` yields null; a float
round-trips through `str` unchanged (modelled as the identity); a
string goes through the cleanup parser. -/
def parse_number : Value → Option ℚ
  | .null => none
  | .num q => some q
  | .str s => parseNumStr s

/-- Result of `parse_number` written back into a cell. -/
def parseNumCell (v : Value) : Value :=
  match parse_number v with
  | some q => .num q
  | none => .null

/-- Modelled from the external `dateutil` parser (library code, not in
this repository): parses `YYYY-MM-DD` / `YYYY/MM/DD` digit dates and
renders them in ISO form; anything else fails.  The pipeline only
relies on the wrapper's contract: any failure becomes null. -/
def dateModelParse (s : String) : Option String :=
  let norm := s.data.map (fun c => if c = '/' then '-' else c)
  match norm.splitOn '-' with
  | [y, m, d] =>
    if y.length = 4 ∧ 1 ≤ m.length ∧ m.length ≤ 2 ∧ 1 ≤ d.length ∧ d.length ≤ 2 ∧
       (y ++ m ++ d).all Char.isDigit ∧
       1 ≤ digitsToNat m ∧ digitsToNat m ≤ 12 ∧ 1 ≤ digitsToNat d ∧ digitsToNat d ≤ 31 then
      some (⟨y⟩ ++ "-" ++ (if m.length = 1 then "0" else "") ++ ⟨m⟩ ++ "-" ++
            (if d.length = 1 then "0" else "") ++ ⟨d⟩)
    else none
  | _ => none

/-- `parse_date` of `utils.py` on a cell: `None` or blank yields null,
otherwise the permissive date parse; failure yields null. -/
def parse_date : Value → Value
  | .null => .null
  | v =>
    let s := pyStr v
    if trimWs s.data = [] then .null
    else
      match dateModelParse s with
      | some iso => .str iso
      | none => .null

/-- `CURRENCY_MAP` of `utils.py`. -/
def CURRENCY_MAP : List (String × String) :=
  [("$", "USD"), ("€", "EUR"), ("£", "GBP"), ("MAD", "MAD"),
   ("usd", "USD"), ("eur", "EUR"), ("gbp", "GBP")]

/-- Uppercase a string (`str.upper()`). -/
def upperStr (s : String) : String := ⟨s.data.map Char.toUpper⟩

/-- `currency_code` of `utils.py`. -/
def currency_code : Value → Value
  | .null => .null
  | v =>
    let s := pyStr v
    if trimWs s.data = [] then .null
    else
      let k : String := ⟨trimWs s.data⟩
      match synLookup CURRENCY_MAP k with
      | some c => .str c
      | none =>
        match synLookup CURRENCY_MAP (upperStr k) with
        | some c => .str c
        | none => .str (upperStr k)

/-- Python `round(x, 2)` on the rational model (half rounds up; the
banker's-rounding tie behaviour of binary floats is not modelled). -/
def round2 (q : ℚ) : ℚ := ((q * 100 + 1 / 2).floor : ℚ) / 100

/- ---------- header synonyms (`synonyms.py`) ---------- -/

/-- `HEADER_SYNONYMS` of `synonyms.py`: normalized messy header → one
canonical name. -/
def HEADER_SYNONYMS : List (String × String) :=
  [("invoice no", "invoice_id"), ("invoice number", "invoice_id"),
   ("invoice", "invoice_id"), ("invoice#", "invoice_id"),
   ("invoice_num", "invoice_id"), ("invid", "invoice_id"),
   ("inv_id", "invoice_id"), ("id facture", "invoice_id"),
   ("date", "issue_date"), ("invoice date", "issue_date"),
   ("due", "due_date"), ("due date", "due_date"),
   ("client", "customer_name"), ("client name", "customer_name"),
   ("customer", "customer_name"), ("customer name", "customer_name"),
   ("customername", "customer_name"), ("company", "customer_name"),
   ("customer id", "customer_id"),
   ("item", "item_description"), ("description", "item_description"),
   ("qty", "quantity"), ("quantity", "quantity"),
   ("price", "unit_price"), ("unit price", "unit_price"),
   ("line total", "line_total"),
   ("subtotal", "total_before_tax"), ("sub total", "total_before_tax"),
   ("ht", "total_before_tax"),
   ("grand total", "total_amount"), ("ttc", "total_amount"),
   ("amount", "total_amount"), ("total", "total_amount"),
   ("tax", "tax_amount"), ("tva", "tax_amount"), ("tax rate", "tax_rate"),
   ("currency", "currency"), ("status", "status")]

/-- `CANONICAL_ORDER` of `synonyms.py`: column order of the cleaned
invoice file. -/
def CANONICAL_ORDER : List String :=
  ["invoice_id", "issue_date", "due_date",
   "customer_name", "customer_id",
   "item_description", "quantity", "unit_price", "line_total",
   "currency", "tax_rate", "tax_amount",
   "total_before_tax", "total_amount",
   "status"]

/- ---------- header mapper (`pipeline.py`, `map_headers`) ---------- -/

/-- Renaming applied to one column label by `map_headers`: normalize,
look up in the synonym table, else replace spaces by underscores.
(A synonym target is always a non-empty string, so Python's
`target if target else ...` is the `Option` match below.) -/
def invMapLabel (c : String) : String :=
  match synLookup HEADER_SYNONYMS (norm_header c) with
  | some tgt => tgt
  | none => underscoreSpaces (norm_header c)

/-- Rename the keys of a row through `f`; in the mapping-based data
model two keys sent to the same name collapse, the later one winning
(spec §9: last-write-wins). -/
def renameRow (f : String → String) (r : Row) : Row :=
  r.foldl (fun acc p => acc.set (f p.1) p.2) []

/-- Keep the first occurrence of each label (dict insertion order). -/
def dedupKeepFirstAux (seen : List String) : List String → List String
  | [] => []
  | c :: cs =>
    if c ∈ seen then dedupKeepFirstAux seen cs
    else c :: dedupKeepFirstAux (c :: seen) cs

/-- Keep the first occurrence of each label (dict insertion order). -/
def dedupKeepFirst (l : List String) : List String := dedupKeepFirstAux [] l

/-- Rename all columns of a table. -/
def Table.renameCols (t : Table) (f : String → String) : Table :=
  ⟨dedupKeepFirst (t.cols.map f), t.rows.map (renameRow f)⟩

/-- `map_headers` of `pipeline.py`. -/
def map_headers (t : Table) : Table := t.renameCols invMapLabel

/- ---------- type normalizer (`pipeline.py` lines 44-52) ---------- -/

/-- Date columns handled by the invoice normalizer. -/
def invoiceDateCols : List String := ["issue_date", "due_date"]

/-- Numeric columns handled by the invoice normalizer. -/
def invoiceNumCols : List String :=
  ["quantity", "unit_price", "line_total", "tax_rate",
   "tax_amount", "total_before_tax", "total_amount"]

/-- One iteration of the normalizer loop over a column label.  The date
branch keeps the source's `if low in df else None` guard.  (After
`map_headers` every label is lowercase, so `low` is always the current
column; the guard on the numeric/currency branches is the modelling of
`df[low]` on that always-present column.) -/
def normStep (t : Table) (col : String) : Table :=
  if lowerStr col ∈ invoiceDateCols then
    (if lowerStr col ∈ t.cols then t.mapColumn (lowerStr col) parse_date
     else t.setColConst (lowerStr col) .null)
  else if lowerStr col ∈ invoiceNumCols then t.mapColumn (lowerStr col) parseNumCell
  else if lowerStr col = "currency" then t.mapColumn (lowerStr col) currency_code
  else t

/-- The normalizer: `for col in list(df.columns): ...` (the snapshot of
the labels is the fold list). -/
def normalizeInvoice (t : Table) : Table := t.cols.foldl normStep t

/- ---------- derived totals (`pipeline.py` lines 17-22, 54-82) ---------- -/

/-- `compute_line_total` of `pipeline.py`. -/
def compute_line_total (r : Row) : Value :=
  match parse_number (r.get "quantity"), parse_number (r.get "unit_price") with
  | some q, some p => .num (round2 (q * p))
  | _, _ => parseNumCell (r.get "line_total")

/-- Group sum of `line_total` for the rows sharing a given
`invoice_id` key (null-inclusive: the null key collects the rows with
null id), nulls skipped, rounded to 2 decimals — the content of
`grp["line_total"].sum().round(2)`. -/
def groupSum (t : Table) (k : Value) : ℚ :=
  round2 (((t.rows.filter (fun r => r.get "invoice_id" = k)).map
    (fun r => match r.get "line_total" with | .num q => q | _ => 0)).sum)

/-- The `line_total` recomputation: ensure the column exists, then
`df["line_total"] = df.apply(compute_line_total, axis=1)`. -/
def lineTotalStage (t : Table) : Table :=
  let t1 := if "line_total" ∈ t.cols then t else t.setColConst "line_total" .null
  t1.setColByRow "line_total" compute_line_total

/-- The tail of the aggregation block: fill nulls of `tax_amount`
(when `tax_rate` is present) and of `total_amount`, and drop the merge
column. -/
def aggTail (x : Table) : Table :=
  let t6 := if "tax_amount" ∈ x.cols then x
            else x.setColConst "tax_amount" .null
  let t7 := if "tax_rate" ∈ t6.cols then
      t6.setColByRow "tax_amount" (fun r =>
        if r.get "tax_amount" = .null then
          match r.get "total_before_tax", r.get "tax_rate" with
          | .num a, .num b => .num (round2 (a * b))
          | _, _ => .null
        else r.get "tax_amount")
    else t6
  let t8 := if "total_amount" ∈ t7.cols then t7
            else t7.setColConst "total_amount" .null
  let t9 := t8.setColByRow "total_amount" (fun r =>
    if r.get "total_amount" = .null then
      match r.get "total_before_tax" with
      | .num a => .num (round2 (a +
          (match r.get "tax_amount" with | .num b => b | _ => 0)))
      | _ => .null
    else r.get "total_amount")
  t9.dropColumn "calc_total_before_tax"

/-- The head of the aggregation block: ensure `total_before_tax`
exists, merge the per-group sums in as `calc_total_before_tax`, and
fill the nulls of `total_before_tax` from them. -/
def aggPrefix (t : Table) : Table :=
  let t3 := if "total_before_tax" ∈ t.cols then t
            else t.setColConst "total_before_tax" .null
  let t4 := t3.setColByRow "calc_total_before_tax"
    (fun r => .num (groupSum t (r.get "invoice_id")))
  t4.setColByRow "total_before_tax"
    (fun r => if r.get "total_before_tax" = .null
              then r.get "calc_total_before_tax"
              else r.get "total_before_tax")

/-- The per-invoice aggregation block (`if "invoice_id" in df: ...`). -/
def aggStage (t : Table) : Table :=
  if "invoice_id" ∈ t.cols then aggTail (aggPrefix t) else t

/-- The whole derived-totals phase (lines 54-82). -/
def deriveStage (t : Table) : Table := aggStage (lineTotalStage t)

/- ---------- anomaly tagger (`pipeline.py` lines 84-97) ---------- -/

/-- Python truthiness of a cell value. -/
def truthy : Value → Bool
  | .null => false
  | .str s => s ≠ ""
  | .num q => q ≠ 0

/-- Python `a < b` on two cells of like type (the tagger compares two
ISO date strings). -/
def valueLtB : Value → Value → Bool
  | .str a, .str b => a < b
  | .num a, .num b => a < b
  | _, _ => false

/-- Join tags with `|` (`"|".join(tags)`, empty when no tag). -/
def joinPipe : List String → String
  | [] => ""
  | [x] => x
  | x :: xs => x ++ "|" ++ joinPipe xs

/-- `row_issues` of `clean_invoices`. -/
def rowIssuesInv (flagDue : Bool) (r : Row) : String :=
  let tags :=
    (match r.get "quantity" with
     | .num q => if q < 0 then ["NEGATIVE_QTY"] else []
     | _ => []) ++
    (match r.get "unit_price" with
     | .num p => if p < 0 then ["NEGATIVE_PRICE"] else []
     | _ => []) ++
    (if flagDue && truthy (r.get "issue_date") && truthy (r.get "due_date") &&
        valueLtB (r.get "due_date") (r.get "issue_date")
     then ["DUE_BEFORE_ISSUE"] else []) ++
    (match r.get "tax_rate" with
     | .num t => if ¬ (0 ≤ t ∧ t ≤ 1 / 2) then ["TAX_RATE_OUT_OF_RANGE"] else []
     | _ => [])
  joinPipe tags

/-- The tagging phase: `df["__issues"] = df.apply(row_issues, axis=1)`. -/
def tagStage (flagDue : Bool) (t : Table) : Table :=
  t.setColByRow "__issues" (fun r => .str (rowIssuesInv flagDue r))

/- ---------- row filter (`pipeline.py` lines 99-104) ---------- -/

/-- `df["quantity"].fillna(0)` read on one row: a null quantity counts
as 0 for the filter, so null passes. -/
def qtyOr0 (r : Row) : ℚ :=
  match r.get "quantity" with
  | .num q => q
  | _ => 0

/-- The optional negative-quantity filter; returns the filtered table
and the number of removed rows (`removed_neg`). -/
def negFilterStage (enabled : Bool) (t : Table) : Table × ℕ :=
  if enabled ∧ "quantity" ∈ t.cols then
    let kept := t.rows.filter (fun r => ¬ qtyOr0 r < 0)
    (⟨t.cols, kept⟩, t.rows.length - kept.length)
  else (t, 0)

/- ---------- deduplicator (`pipeline.py` lines 106-126) ---------- -/

/-- The exact-pass key `(invoice_id, item_description, line_total)`. -/
def exactKey (r : Row) : List Value :=
  ["invoice_id", "item_description", "line_total"].map r.get

/-- Keep the first row of each exact-key class (`drop_duplicates(...,
keep="first")`). -/
def keepFirstBy (seen : List (List Value)) : List Row → List Row
  | [] => []
  | r :: rs =>
    if exactKey r ∈ seen then keepFirstBy seen rs
    else r :: keepFirstBy (exactKey r :: seen) rs

/-- `df.drop_duplicates(subset=[...])`: pandas raises `KeyError` when a
subset column is not present; otherwise first occurrences are kept. -/
def dropDuplicatesExact (t : Table) : Except String Table :=
  if ["invoice_id", "item_description", "line_total"].all (fun c => c ∈ t.cols) then
    .ok ⟨t.cols, keepFirstBy [] t.rows⟩
  else .error "KeyError"

/-- Total comparison of two cell values used for the fuzzy-pass sort:
numbers, then strings, then nulls (pandas sorts nulls last). -/
def cmpV : Value → Value → Ordering
  | .null, .null => .eq
  | .null, _ => .gt
  | _, .null => .lt
  | .num p, .num q => if p < q then .lt else if q < p then .gt else .eq
  | .num _, .str _ => .lt
  | .str _, .num _ => .gt
  | .str s, .str t => if s < t then .lt else if t < s then .gt else .eq

/-- The sort key of the fuzzy pass: `(customer_name, issue_date)`. -/
def rowKey (r : Row) : Value × Value := (r.get "customer_name", r.get "issue_date")

/-- Lexicographic comparison of two sort keys. -/
def cmpKey (a b : Value × Value) : Ordering :=
  match cmpV a.1 b.1 with
  | .eq => cmpV a.2 b.2
  | o => o

/-- Non-strict row order of the fuzzy-pass sort. -/
def rowLe (a b : Row) : Prop := cmpKey (rowKey a) (rowKey b) ≠ .gt

instance : DecidableRel rowLe := fun a b => by unfold rowLe; infer_instance

/-- `df.sort_values(by=["customer_name", "issue_date"])`: a stable
ascending sort (pandas multi-column sort is `np.lexsort`, stable). -/
def sortRows (l : List Row) : List Row := l.insertionSort rowLe

/-- Indel (insert/delete) edit distance between two character lists —
the distance underlying `rapidfuzz.fuzz.ratio`.  Helper taking the
recursion on the first list as an argument. -/
def indelAux (x : Char) (xs : List Char) (rec : List Char → ℕ) : List Char → ℕ
  | [] => xs.length + 1
  | y :: ys => if x = y then rec ys else 1 + min (indelAux x xs rec ys) (rec (y :: ys))

/-- Indel (insert/delete) edit distance between two character lists. -/
def indel : List Char → List Char → ℕ
  | [], ys => ys.length
  | x :: xs, ys => indelAux x xs (indel xs) ys

/-- `fuzz.ratio` of rapidfuzz: normalized indel similarity on a 0–100
scale (100 for two empty strings). -/
def fuzzScore (a b : String) : ℚ :=
  if a.data.length + b.data.length = 0 then 100
  else 100 * (1 - (indel a.data b.data : ℚ) / (a.data.length + b.data.length))

/-- `(row["total_amount"] or 0)`: null (and 0 itself) read as 0. -/
def amtOr0 (r : Row) : ℚ :=
  match r.get "total_amount" with
  | .num q => q
  | _ => 0

/-- The body of the fuzzy-scan loop at position `i`: compare row `i`
with row `i - 1` of the sorted frame. -/
def fuzzyCondB (th : ℤ) (s : List Row) (i : ℕ) : Bool :=
  let a := s.getD (i - 1) []
  let b := s.getD i []
  decide (|amtOr0 b - amtOr0 a| ≤ 1 / 100) &&
  decide ((th : ℚ) ≤ fuzzScore (pyStr (a.get "customer_name")) (pyStr (b.get "customer_name")))

/-- `to_drop`: the indices collected by
`for i in range(1, len(df)): ...` against the pre-deletion frame. -/
def fuzzyDrops (th : ℤ) (s : List Row) : List ℕ :=
  (List.range' 1 (s.length - 1)).filter (fuzzyCondB th s)

/-- `df.drop(df.index[to_drop])`: delete the listed positions, all at
once, after the scan. -/
def removeIdx (s : List Row) (idxs : List ℕ) : List Row :=
  (s.enum.filter (fun p => decide (p.1 ∉ idxs))).map Prod.snd

/-- The fuzzy deduplication pass: sort, scan adjacent positions, then
delete the marked positions; also returns `len(to_drop)`. -/
def fuzzyPass (th : ℤ) (t : Table) : Table × ℕ :=
  if ["customer_name", "total_amount", "issue_date"].all (fun c => c ∈ t.cols) then
    let s := sortRows t.rows
    let drops := fuzzyDrops th s
    (⟨t.cols, removeIdx s drops⟩, drops.length)
  else (t, 0)

/-- Configuration of `clean_invoices` with the source's defaults. -/
structure Config where
  fuzzyThreshold : ℤ := 90
  dropDuplicates : Bool := true
  dropNegativeQty : Bool := false
  flagDueBeforeIssue : Bool := true
deriving Repr, DecidableEq

/-- The duplicate-removal phase (hard + soft): the exact pass runs only
when `invoice_id` is present, the fuzzy pass only when its three
columns are present; returns the table and `dup_removed`. -/
def dedupStage (cfg : Config) (t : Table) : Except String (Table × ℕ) :=
  if cfg.dropDuplicates then
    match (if "invoice_id" ∈ t.cols then dropDuplicatesExact t else .ok t) with
    | .error e => .error e
    | .ok t1 =>
      let n1 := t.rows.length - t1.rows.length
      let p := fuzzyPass cfg.fuzzyThreshold t1
      .ok (p.1, n1 + p.2)
  else .ok (t, 0)

/- ---------- summary builder (`pipeline.py` lines 128-182) ---------- -/

/-- `(df["__issues"] != "").sum()`. -/
def countIssues (rows : List Row) : ℕ :=
  rows.countP (fun r => decide (r.get "__issues" ≠ .str ""))

/-- Split a string on `|` (`str.split("|")`). -/
def splitPipeAux (cur : List Char) : List Char → List String
  | [] => [⟨cur.reverse⟩]
  | c :: cs => if c = '|' then ⟨cur.reverse⟩ :: splitPipeAux [] cs
               else splitPipeAux (c :: cur) cs

/-- Split a string on `|` (`str.split("|")`). -/
def splitPipe (s : String) : List String := splitPipeAux [] s.data

/-- The non-empty tags of one row (`.str.split("|").explode()` with the
empty strings filtered out; a null issues value reads as `""`). -/
def issuesOfRow (r : Row) : List String :=
  (splitPipe (match r.get "__issues" with | .str s => s | _ => "")).filter
    (fun x => x ≠ "")

/-- `issues_summary`: each distinct tag with its number of occurrences
(`value_counts().to_dict()`, modelled in first-occurrence order). -/
def issuesSummaryOf (rows : List Row) : List (String × ℕ) :=
  let l := (rows.map issuesOfRow).flatten
  (dedupKeepFirst l).map (fun g => (g, l.count g))

/-- `currency_detected`: the first non-null currency value, when the
column exists. -/
def currencyDetected (t : Table) : Option Value :=
  if "currency" ∈ t.cols then
    (t.rows.map (fun r => r.get "currency")).find? (fun v => v ≠ .null)
  else none

/-- The output column order of `clean_invoices` (lines 141-144):
canonical columns present, then surviving unknown columns, then
`__issues`. -/
def invoiceOrderedCols (cs : List String) : List String :=
  CANONICAL_ORDER.filter (fun c => c ∈ cs) ++
  cs.filter (fun c => decide (c ∉ CANONICAL_ORDER ∧ c ≠ "__issues")) ++
  ["__issues"]

/-- The `profile` record of `clean_invoices`. -/
structure Profile where
  rowsIn : ℕ
  rowsOut : ℕ
  duplicatesRemoved : ℕ
  errorsFixed : ℕ
  currencyDetected : Option Value
deriving Repr, DecidableEq

/-- The result of `clean_invoices` (`preview`, `header_map` and
`applied_rules` are presentational echoes and are not modelled; the
`removed_neg` count, surfaced in the source through the `ai_feedback`
tip "Dropped N rows with negative quantities", is the `removedNeg`
field). -/
structure InvoiceResult where
  profile : Profile
  issuesSummary : List (String × ℕ)
  removedNeg : ℕ
  cleanDf : Table
deriving Repr, DecidableEq

/-- `clean_invoices` of `pipeline.py`.  The phases run in source order:
copy + header map, normalize, derived totals, tagging, optional
negative filter, dedup (which can raise `KeyError`, modelled by
`Except`), then the summary and the column reordering. -/
def clean_invoices (dfIn : Table) (cfg : Config) : Except String InvoiceResult :=
  let df1 := map_headers dfIn.copy
  let df2 := normalizeInvoice df1
  let df3 := deriveStage df2
  let df4 := tagStage cfg.flagDueBeforeIssue df3
  let p5 := negFilterStage cfg.dropNegativeQty df4
  match dedupStage cfg p5.1 with
  | .error e => .error e
  | .ok p6 =>
    let df6 := p6.1
    let profile : Profile :=
      { rowsIn := dfIn.rows.length
        rowsOut := df6.rows.length
        duplicatesRemoved := p6.2
        errorsFixed := countIssues df6.rows
        currencyDetected := currencyDetected df6 }
    let out := df6.select (invoiceOrderedCols df6.cols)
    .ok { profile := profile
          issuesSummary := issuesSummaryOf out.rows
          removedNeg := p5.2
          cleanDf := out }

/- ---------- stock pipeline (`stock.py`) ---------- -/

/-- `INTERNAL_ISSUES_COL` of `stock.py`. -/
def INTERNAL_ISSUES_COL : String := "__aibox_issues"

/-- `INTERNAL_EXP_DATE_COL` of `stock.py`. -/
def INTERNAL_EXP_DATE_COL : String := "__aibox_exp_dt"

/-- `STOCK_HEADER_SYNONYMS` of `stock.py`. -/
def STOCK_HEADER_SYNONYMS : List (String × String) :=
  [("sku", "sku"), ("product", "name"), ("product name", "name"),
   ("name", "name"), ("item", "name"),
   ("qty", "qty_on_hand"), ("quantity", "qty_on_hand"),
   ("qty_on_hand", "qty_on_hand"), ("on hand", "qty_on_hand"),
   ("onhand", "qty_on_hand"),
   ("reorder_point", "reorder_point"), ("reorder point", "reorder_point"),
   ("min qty", "reorder_point"), ("minimum qty", "reorder_point"),
   ("expiry", "expiry_date"), ("expiry date", "expiry_date"),
   ("expiration", "expiry_date"), ("expiration date", "expiry_date"),
   ("expire date", "expiry_date"), ("best before", "expiry_date"),
   ("bbd", "expiry_date"),
   ("supplier", "supplier"), ("vendor", "supplier")]

/-- `CANONICAL_ORDER_STOCK` of `stock.py` (note that it lists
`__issues` among the canonical names). -/
def CANONICAL_ORDER_STOCK : List String :=
  ["sku", "name", "supplier",
   "qty_on_hand", "reorder_point",
   "expiry_date",
   "__issues"]

/-- Renaming applied to one label by `_map_headers` of `stock.py`. -/
def stockMapLabel (c : String) : String :=
  match synLookup STOCK_HEADER_SYNONYMS (norm_header c) with
  | some tgt => tgt
  | none => underscoreSpaces (norm_header c)

/-- `_map_headers` of `stock.py`. -/
def stockMapHeaders (t : Table) : Table := t.renameCols stockMapLabel

/-- `_safe_to_date` of `stock.py`, with calendar days modelled as
integers: an integral numeric cell is a day number, anything else fails
to coerce (models the guarded `pd.to_datetime(value, errors="coerce")`
of the external library). -/
def safeToDate : Value → Option ℤ
  | .num q => if q.den = 1 then some q.num else none
  | _ => none

/-- `date.isoformat()` modelled as an injective rendering of the day
number. -/
def isoOfDay (d : ℤ) : String := "day:" ++ toString d

/-- `_row_issues` of `clean_stock`: LOW_STOCK, EXPIRED / EXPIRING_SOON
from the internal date column, NEGATIVE_QTY. -/
def rowIssuesStock (today cutoff : ℤ) (r : Row) : String :=
  let tags :=
    (match r.get "qty_on_hand", r.get "reorder_point" with
     | .num q, .num rop => if q ≤ rop then ["LOW_STOCK"] else []
     | _, _ => []) ++
    (match r.get INTERNAL_EXP_DATE_COL with
     | .num d =>
       if d < (today : ℚ) then ["EXPIRED"]
       else if d ≤ (cutoff : ℚ) then ["EXPIRING_SOON"]
       else []
     | _ => []) ++
    (match r.get "qty_on_hand" with
     | .num q => if q < 0 then ["NEGATIVE_QTY"] else []
     | _ => [])
  joinPipe tags

/-- The stock negative-quantity filter (step 5 of `clean_stock`). -/
def stockNegFilter (enabled : Bool) (t : Table) : Table × ℕ :=
  if enabled ∧ "qty_on_hand" ∈ t.cols then
    let kept := t.rows.filter (fun r =>
      ¬ (match r.get "qty_on_hand" with | .num q => q | _ => 0) < 0)
    (⟨t.cols, kept⟩, t.rows.length - kept.length)
  else (t, 0)

/-- The output column order of `clean_stock` (step 8): canonical stock
columns present — a list that contains `__issues` — then surviving
unknown columns (internal columns excluded), then `__issues` again. -/
def stockOrderedCols (cs : List String) : List String :=
  CANONICAL_ORDER_STOCK.filter (fun c => c ∈ cs) ++
  cs.filter (fun c => decide (c ∉ CANONICAL_ORDER_STOCK ∧
    c ≠ INTERNAL_ISSUES_COL ∧ c ≠ INTERNAL_EXP_DATE_COL)) ++
  ["__issues"]

/-- The `profile` record of `clean_stock`. -/
structure StockProfile where
  rowsIn : ℕ
  rowsOut : ℕ
  lowStock : ℕ
  expiringSoon : ℕ
  expired : ℕ
  negativeQtyDropped : ℕ
deriving Repr, DecidableEq

/-- The result of `clean_stock` (`preview` and `ai_feedback` are
presentational and are not modelled). -/
structure StockResult where
  profile : StockProfile
  issuesSummary : List (String × ℕ)
  cleanDf : Table
deriving Repr, DecidableEq

/-- `issues_summary.get(tag, 0)`. -/
def summaryGet (l : List (String × ℕ)) (k : String) : ℕ :=
  match l.find? (fun p => p.1 == k) with
  | some p => p.2
  | none => 0

/-- The non-empty tags of one row read from the INTERNAL issues column
(step 6 of `clean_stock`). -/
def stockIssuesOfRow (r : Row) : List String :=
  (splitPipe (match r.get INTERNAL_ISSUES_COL with | .str s => s | _ => "")).filter
    (fun x => x ≠ "")

/-- Steps 2-3 of `clean_stock`: normalize the numeric columns and the
expiry date (internal date column plus the displayed ISO string). -/
def stockNormStage (t : Table) : Table :=
  let df2 := if "qty_on_hand" ∈ t.cols then t.mapColumn "qty_on_hand" parseNumCell else t
  let df3 := if "reorder_point" ∈ df2.cols then df2.mapColumn "reorder_point" parseNumCell else df2
  if "expiry_date" ∈ df3.cols then
    let a := df3.setColByRow INTERNAL_EXP_DATE_COL (fun r =>
      match safeToDate (r.get "expiry_date") with
      | some d => .num d
      | none => .null)
    a.setColByRow "expiry_date" (fun r =>
      match r.get INTERNAL_EXP_DATE_COL with
      | .num d => .str (isoOfDay d.num)
      | _ => .null)
  else df3.setColConst INTERNAL_EXP_DATE_COL .null

/-- Step 4 of `clean_stock`: write the internal issues column. -/
def stockTagStage (today cutoff : ℤ) (t : Table) : Table :=
  t.setColByRow INTERNAL_ISSUES_COL
    (fun r => .str (rowIssuesStock today cutoff r))

/-- `clean_stock` of `stock.py`.  `today` is the clock reading
(`datetime.utcnow().date()`), a calendar day modelled as an integer;
`soon_cutoff = today + days_expiring`. -/
def clean_stock (dfIn : Table) (daysExpiring : ℤ) (dropNegativeQty : Bool)
    (today : ℤ) : StockResult :=
  let df1 := stockMapHeaders dfIn.copy
  let df4 := stockNormStage df1
  let df5 := stockTagStage today (today + daysExpiring) df4
  let p6 := stockNegFilter dropNegativeQty df5
  let df6 := p6.1
  let summary := issuesSummaryOf (df6.rows.map (fun r =>
    [(("__issues" : String), r.get INTERNAL_ISSUES_COL)]))
  let df7 := df6.setColByRow "__issues" (fun r => r.get INTERNAL_ISSUES_COL)
  let df8 := df7.select (stockOrderedCols df7.cols)
  let df9 := (df8.dropColumn INTERNAL_ISSUES_COL).dropColumn INTERNAL_EXP_DATE_COL
  { profile :=
      { rowsIn := dfIn.rows.length
        rowsOut := df6.rows.length
        lowStock := summaryGet summary "LOW_STOCK"
        expiringSoon := summaryGet summary "EXPIRING_SOON"
        expired := summaryGet summary "EXPIRED"
        negativeQtyDropped := p6.2 }
    issuesSummary := summary
    cleanDf := df9 }

/- ---------- explicit state passing for the frame claim ---------- -/

/-- The two table objects visible inside an entry point: the caller's
argument `df_in` and the pipeline's working frame `df`.  Every source
statement mutates `df` only; `df = df_in.copy()` is the only read of
the caller's object. -/
structure PipeState where
  dfIn : Table
  df : Table
deriving Repr, DecidableEq

/-- `clean_invoices` with the caller's table threaded explicitly: the
component `.2` is the caller's object after the call returns. -/
def cleanInvoicesTracked (dfIn : Table) (cfg : Config) :
    Except String InvoiceResult × Table :=
  let s0 : PipeState := ⟨dfIn, dfIn.copy⟩
  let s1 : PipeState := ⟨s0.dfIn, map_headers s0.df⟩
  let s2 : PipeState := ⟨s1.dfIn, normalizeInvoice s1.df⟩
  let s3 : PipeState := ⟨s2.dfIn, deriveStage s2.df⟩
  let s4 : PipeState := ⟨s3.dfIn, tagStage cfg.flagDueBeforeIssue s3.df⟩
  let p5 := negFilterStage cfg.dropNegativeQty s4.df
  let s5 : PipeState := ⟨s4.dfIn, p5.1⟩
  match dedupStage cfg s5.df with
  | .error e => (.error e, s5.dfIn)
  | .ok p6 =>
    let s6 : PipeState := ⟨s5.dfIn, p6.1⟩
    let profile : Profile :=
      { rowsIn := s6.dfIn.rows.length
        rowsOut := s6.df.rows.length
        duplicatesRemoved := p6.2
        errorsFixed := countIssues s6.df.rows
        currencyDetected := currencyDetected s6.df }
    let s7 : PipeState := ⟨s6.dfIn, s6.df.select (invoiceOrderedCols s6.df.cols)⟩
    (.ok { profile := profile
           issuesSummary := issuesSummaryOf s7.df.rows
           removedNeg := p5.2
           cleanDf := s7.df }, s7.dfIn)

/-- `clean_stock` with the caller's table threaded explicitly: the
component `.2` is the caller's object after the call returns. -/
def cleanStockTracked (dfIn : Table) (daysExpiring : ℤ)
    (dropNegativeQty : Bool) (today : ℤ) : StockResult × Table :=
  let s0 : PipeState := ⟨dfIn, dfIn.copy⟩
  let s1 : PipeState := ⟨s0.dfIn, stockMapHeaders s0.df⟩
  (clean_stock s1.dfIn daysExpiring dropNegativeQty today, s1.dfIn)

/-- Extract the payload of a successful run (used to state concrete
instantiations of theorems with an `Except` hypothesis). -/
def getOkInv (e : Except String InvoiceResult) (d : InvoiceResult) : InvoiceResult :=
  match e with
  | .ok r => r
  | .error _ => d

/-- A default result payload for `getOkInv`. -/
def emptyInvoiceResult : InvoiceResult :=
  ⟨⟨0, 0, 0, 0, none⟩, [], 0, ⟨[], []⟩⟩

/- ---------- basic lemmas about the table model ---------- -/

theorem Row.get_set_self (r : Row) (c : String) (v : Value) :
    (r.set c v).get c = v := by
  induction r with
  | nil => simp [Row.set, Row.get]
  | cons p rs ih =>
    by_cases hp : p.1 = c
    · simpa [Row.set, Row.get, hp] using ih
    · simpa [Row.set, List.filter_cons, hp, Row.get] using ih

theorem Row.get_set_ne (r : Row) (c c2 : String) (v : Value) (h : c2 ≠ c) :
    (r.set c v).get c2 = r.get c2 := by
  induction r with
  | nil => simp [Row.set, Row.get, Ne.symm h]
  | cons p rs ih =>
    by_cases hp : p.1 = c
    · have hp2 : ¬ p.1 = c2 := fun hc => h (hc ▸ hp)
      simpa [Row.set, List.filter_cons, hp, Row.get, hp2, h, Ne.symm h] using ih
    · by_cases hc : p.1 = c2
      · simp [Row.set, List.filter_cons, hp, Row.get, hc, h, Ne.symm h]
      · simpa [Row.set, List.filter_cons, hp, Row.get, hc, h, Ne.symm h] using ih

theorem Row.get_erase_ne (r : Row) (c c2 : String) (h : c2 ≠ c) :
    (r.erase c).get c2 = r.get c2 := by
  induction r with
  | nil => simp [Row.erase]
  | cons p rs ih =>
    by_cases hp : p.1 = c
    · have hp2 : ¬ p.1 = c2 := fun hc => h (hc ▸ hp)
      simpa [Row.erase, List.filter_cons, hp, Row.get, hp2, h, Ne.symm h] using ih
    · by_cases hc : p.1 = c2
      · simp [Row.erase, List.filter_cons, hp, Row.get, hc, h, Ne.symm h]
      · simpa [Row.erase, List.filter_cons, hp, Row.get, hc, h, Ne.symm h] using ih

theorem Row.get_build (cs : List String) (r : Row) (c : String) (h : c ∈ cs) :
    Row.get (cs.map (fun c2 => (c2, r.get c2))) c = r.get c := by
  induction cs with
  | nil => simp at h
  | cons d ds ih =>
    by_cases hd : d = c
    · simp [Row.get, hd]
    · have hm : c ∈ ds := by
        rcases List.mem_cons.mp h with h1 | h1
        · exact absurd h1.symm hd
        · exact h1
      simpa [Row.get, hd] using ih hm

/- ---------- row-count lemmas for the phases ---------- -/

theorem setColByRow_rows_length (t : Table) (c : String) (f : Row → Value) :
    (t.setColByRow c f).rows.length = t.rows.length := by
  simp [Table.setColByRow]

theorem renameCols_rows_length (t : Table) (f : String → String) :
    (t.renameCols f).rows.length = t.rows.length := by
  simp [Table.renameCols]

theorem normStep_rows_length (t : Table) (col : String) :
    (normStep t col).rows.length = t.rows.length := by
  unfold normStep
  split_ifs <;>
    simp [Table.mapColumn, Table.setColConst, setColByRow_rows_length]

theorem normalizeInvoice_rows_length (t : Table) :
    (normalizeInvoice t).rows.length = t.rows.length := by
  unfold normalizeInvoice
  generalize t.cols = cs
  induction cs generalizing t with
  | nil => simp
  | cons c cs ih => simpa [List.foldl_cons, normStep_rows_length] using
      (ih (normStep t c)).trans (normStep_rows_length t c)

theorem lineTotalStage_rows_length (t : Table) :
    (lineTotalStage t).rows.length = t.rows.length := by
  unfold lineTotalStage
  split_ifs <;>
    simp [Table.setColConst, setColByRow_rows_length]

theorem dropColumn_rows_length (t : Table) (c : String) :
    (t.dropColumn c).rows.length = t.rows.length := by
  simp [Table.dropColumn]

theorem rows_length_ite (P : Prop) [Decidable P] (a b : Table) :
    (if P then a else b).rows.length = if P then a.rows.length else b.rows.length := by
  split_ifs <;> rfl

theorem aggTail_rows_length (x : Table) :
    (aggTail x).rows.length = x.rows.length := by
  unfold aggTail
  split_ifs <;>
    simp [Table.setColConst, setColByRow_rows_length, dropColumn_rows_length,
      rows_length_ite]

theorem aggPrefix_rows_length (t : Table) :
    (aggPrefix t).rows.length = t.rows.length := by
  unfold aggPrefix
  split_ifs <;>
    simp [Table.setColConst, setColByRow_rows_length, rows_length_ite]

theorem aggStage_rows_length (t : Table) :
    (aggStage t).rows.length = t.rows.length := by
  unfold aggStage
  split_ifs <;>
    simp [aggTail_rows_length, aggPrefix_rows_length]

theorem deriveStage_rows_length (t : Table) :
    (deriveStage t).rows.length = t.rows.length := by
  unfold deriveStage
  rw [aggStage_rows_length, lineTotalStage_rows_length]

theorem tagStage_rows_length (b : Bool) (t : Table) :
    (tagStage b t).rows.length = t.rows.length := by
  simp [tagStage, setColByRow_rows_length]

theorem select_rows_length (t : Table) (cs : List String) :
    (t.select cs).rows.length = t.rows.length := by
  simp [Table.select]

theorem negFilterStage_spec (b : Bool) (t : Table) :
    (negFilterStage b t).1.rows.length ≤ t.rows.length ∧
    (negFilterStage b t).2 = t.rows.length - (negFilterStage b t).1.rows.length ∧
    (negFilterStage b t).1.cols = t.cols := by
  unfold negFilterStage
  split_ifs with h
  · exact ⟨List.length_filter_le _ _, rfl, rfl⟩
  · exact ⟨le_refl _, by simp, rfl⟩

theorem keepFirstBy_length_le (l : List Row) :
    ∀ seen, (keepFirstBy seen l).length ≤ l.length := by
  induction l with
  | nil => intro seen; simp [keepFirstBy]
  | cons r rs ih =>
    intro seen
    unfold keepFirstBy
    split_ifs
    · exact le_trans (ih seen) (Nat.le_succ _)
    · simpa using ih (exactKey r :: seen)

/-- Counting lemma for positional deletion: removing the positions
where `p` holds from an enumerated list, plus the number of positions
where `p` holds, recovers the length. -/
theorem filter_enumFrom_length (l : List Row) (p : ℕ → Bool) :
    ∀ k, ((List.enumFrom k l).filter (fun pr => ! p pr.1)).length +
      ((List.range' k l.length).filter p).length = l.length := by
  induction l with
  | nil => intro k; simp
  | cons r rs ih =>
    intro k
    rw [List.length_cons, List.range'_succ, List.enumFrom_cons]
    have ihk := ih (k + 1)
    cases hp : p k <;> simp [List.filter_cons, hp] <;> omega

theorem sortRows_length (l : List Row) : (sortRows l).length = l.length :=
  (List.perm_insertionSort rowLe l).length_eq

theorem count_drops_general (cond : ℕ → Bool) (n : ℕ) :
    ((List.range' 0 n).filter
      (fun i => decide (i ∈ (List.range' 1 (n - 1)).filter cond))).length =
    ((List.range' 1 (n - 1)).filter cond).length := by
  cases n with
  | zero => simp
  | succ m =>
    have hms : m + 1 - 1 = m := rfl
    rw [hms, List.range'_succ]
    have h0 : (decide ((0 : ℕ) ∈ (List.range' 1 m).filter cond)) = false := by
      simp only [decide_eq_false_iff_not]
      intro hmem
      rcases List.mem_range'.mp (List.mem_filter.mp hmem).1 with ⟨i, hi, he⟩
      omega
    rw [List.filter_cons]
    simp only [h0, Bool.false_eq_true, if_false]
    have hcongr : ∀ x ∈ List.range' 1 m,
        (decide (x ∈ (List.range' 1 m).filter cond)) = cond x := by
      intro x hx
      by_cases hc : cond x = true
      · simp [List.mem_filter, hx, hc]
      · simp only [Bool.not_eq_true] at hc
        simp [List.mem_filter, hx, hc]
    rw [List.filter_congr hcongr]

theorem removeIdx_drops_length (th : ℤ) (s : List Row) :
    (removeIdx s (fuzzyDrops th s)).length + (fuzzyDrops th s).length = s.length := by
  have hmain := filter_enumFrom_length s (fun i => decide (i ∈ fuzzyDrops th s)) 0
  have h1 : (removeIdx s (fuzzyDrops th s)).length =
      ((List.enumFrom 0 s).filter
        (fun pr => ! decide (pr.1 ∈ fuzzyDrops th s))).length := by
    simp [removeIdx, List.enum, decide_not]
  have h2 := count_drops_general (fuzzyCondB th s) s.length
  unfold fuzzyDrops at h1 hmain ⊢
  omega

theorem fuzzyPass_spec (th : ℤ) (t : Table) :
    (fuzzyPass th t).1.rows.length + (fuzzyPass th t).2 = t.rows.length ∧
    (fuzzyPass th t).1.cols = t.cols := by
  unfold fuzzyPass
  split_ifs with h
  · refine ⟨?_, rfl⟩
    have := removeIdx_drops_length th (sortRows t.rows)
    rw [sortRows_length] at this
    simpa using this
  · simp

theorem dropDuplicatesExact_ok (t t1 : Table) (h : dropDuplicatesExact t = .ok t1) :
    t1.cols = t.cols ∧ t1.rows.length ≤ t.rows.length := by
  unfold dropDuplicatesExact at h
  split_ifs at h
  · cases h
    exact ⟨rfl, keepFirstBy_length_le _ _⟩

theorem dedupStage_ok (cfg : Config) (t t2 : Table) (n : ℕ)
    (h : dedupStage cfg t = .ok (t2, n)) :
    t2.cols = t.cols ∧ t2.rows.length ≤ t.rows.length ∧
    n = t.rows.length - t2.rows.length := by
  unfold dedupStage at h
  by_cases hd : cfg.dropDuplicates = true
  · rw [if_pos hd] at h
    by_cases hi : "invoice_id" ∈ t.cols
    · rw [if_pos hi] at h
      rcases hx : dropDuplicatesExact t with e | t1
      · rw [hx] at h
        simp at h
      · rw [hx] at h
        simp only [Except.ok.injEq, Prod.mk.injEq] at h
        obtain ⟨h1, h2⟩ := h
        have ht1 := dropDuplicatesExact_ok t t1 hx
        have hf := fuzzyPass_spec cfg.fuzzyThreshold t1
        subst h1
        subst h2
        exact ⟨hf.2.trans ht1.1, by omega, by omega⟩
    · rw [if_neg hi] at h
      simp only [Except.ok.injEq, Prod.mk.injEq] at h
      obtain ⟨h1, h2⟩ := h
      have hf := fuzzyPass_spec cfg.fuzzyThreshold t
      subst h1
      subst h2
      exact ⟨hf.2, by omega, by omega⟩
  · rw [if_neg hd] at h
    simp only [Except.ok.injEq, Prod.mk.injEq] at h
    obtain ⟨h1, h2⟩ := h
    subst h1
    subst h2
    exact ⟨rfl, le_refl _, by omega⟩

theorem stockNormStage_rows_length (t : Table) :
    (stockNormStage t).rows.length = t.rows.length := by
  unfold stockNormStage
  split_ifs <;>
    simp [Table.mapColumn, Table.setColConst, setColByRow_rows_length,
      rows_length_ite]

theorem stockTagStage_rows_length (today cutoff : ℤ) (t : Table) :
    (stockTagStage today cutoff t).rows.length = t.rows.length := by
  simp [stockTagStage, setColByRow_rows_length]

theorem stockNegFilter_spec (b : Bool) (t : Table) :
    (stockNegFilter b t).1.rows.length ≤ t.rows.length ∧
    (stockNegFilter b t).2 = t.rows.length - (stockNegFilter b t).1.rows.length ∧
    (stockNegFilter b t).1.cols = t.cols := by
  unfold stockNegFilter
  split_ifs with h
  · exact ⟨List.length_filter_le _ _, rfl, rfl⟩
  · exact ⟨le_refl _, by simp, rfl⟩

theorem invPrefixTag_length (b : Bool) (t : Table) :
    (tagStage b (deriveStage (normalizeInvoice (map_headers t)))).rows.length =
    t.rows.length := by
  rw [tagStage_rows_length, deriveStage_rows_length, normalizeInvoice_rows_length,
    map_headers, renameCols_rows_length]

/-- C6: for every input table and configuration, `rows_out ≤ rows_in`,
and row removal is exactly accounted for by the explicit phases: in
`clean_invoices`, `duplicates_removed` plus the negative-quantity
removal count equals `rows_in - rows_out`; in `clean_stock`,
`negative_qty_dropped` equals `rows_in - rows_out`; no other phase
changes the row count. -/
theorem c6_row_accounting :
    (∀ (t : Table) (cfg : Config) (r : InvoiceResult),
      clean_invoices t cfg = .ok r →
      r.profile.rowsOut ≤ r.profile.rowsIn ∧
      r.profile.duplicatesRemoved + r.removedNeg =
        r.profile.rowsIn - r.profile.rowsOut) ∧
    (∀ (t : Table) (d : ℤ) (b : Bool) (today : ℤ),
      (clean_stock t d b today).profile.rowsOut ≤
        (clean_stock t d b today).profile.rowsIn ∧
      (clean_stock t d b today).profile.negativeQtyDropped =
        (clean_stock t d b today).profile.rowsIn -
          (clean_stock t d b today).profile.rowsOut) := by
  constructor
  · intro t cfg r h
    simp only [clean_invoices, Table.copy] at h
    rcases hx : dedupStage cfg
        (negFilterStage cfg.dropNegativeQty
          (tagStage cfg.flagDueBeforeIssue
            (deriveStage (normalizeInvoice (map_headers t))))).1 with e | p6
    · rw [hx] at h
      simp at h
    · obtain ⟨t6, n6⟩ := p6
      rw [hx] at h
      simp only [Except.ok.injEq] at h
      subst h
      have hpre := invPrefixTag_length cfg.flagDueBeforeIssue t
      have hneg := negFilterStage_spec cfg.dropNegativeQty
        (tagStage cfg.flagDueBeforeIssue
          (deriveStage (normalizeInvoice (map_headers t))))
      have hded := dedupStage_ok cfg _ t6 n6 hx
      obtain ⟨hn1, hn2, _⟩ := hneg
      obtain ⟨_, hd1, hd2⟩ := hded
      constructor
      · show t6.rows.length ≤ t.rows.length
        omega
      · show n6 + (negFilterStage cfg.dropNegativeQty
            (tagStage cfg.flagDueBeforeIssue
              (deriveStage (normalizeInvoice (map_headers t))))).2 =
          t.rows.length - t6.rows.length
        omega
  · intro t d b today
    simp only [clean_stock, Table.copy]
    have hlen : (stockTagStage today (today + d)
        (stockNormStage (stockMapHeaders t))).rows.length = t.rows.length := by
      rw [stockTagStage_rows_length, stockNormStage_rows_length, stockMapHeaders,
        renameCols_rows_length]
    have hneg := stockNegFilter_spec b
      (stockTagStage today (today + d) (stockNormStage (stockMapHeaders t)))
    obtain ⟨hn1, hn2, _⟩ := hneg
    constructor
    · show (stockNegFilter b (stockTagStage today (today + d)
        (stockNormStage (stockMapHeaders t)))).1.rows.length ≤ t.rows.length
      omega
    · show (stockNegFilter b (stockTagStage today (today + d)
          (stockNormStage (stockMapHeaders t)))).2 =
        t.rows.length - (stockNegFilter b (stockTagStage today (today + d)
          (stockNormStage (stockMapHeaders t)))).1.rows.length
      omega

/-- Concrete instantiation of `c6_row_accounting` discharging its
hypothesis: a one-row table whose negative-quantity row is dropped. -/
theorem c6_row_accounting_witness :
    (clean_invoices ⟨["quantity"], [[("quantity", Value.str "-1")]]⟩
        { dropNegativeQty := true } =
      .ok (getOkInv
        (clean_invoices ⟨["quantity"], [[("quantity", Value.str "-1")]]⟩
          { dropNegativeQty := true }) emptyInvoiceResult)) ∧
    ((getOkInv
        (clean_invoices ⟨["quantity"], [[("quantity", Value.str "-1")]]⟩
          { dropNegativeQty := true }) emptyInvoiceResult).profile.rowsOut ≤
      (getOkInv
        (clean_invoices ⟨["quantity"], [[("quantity", Value.str "-1")]]⟩
          { dropNegativeQty := true }) emptyInvoiceResult).profile.rowsIn) :=
  ⟨rfl,
   (c6_row_accounting.1 ⟨["quantity"], [[("quantity", Value.str "-1")]]⟩
      { dropNegativeQty := true }
      (getOkInv
        (clean_invoices ⟨["quantity"], [[("quantity", Value.str "-1")]]⟩
          { dropNegativeQty := true }) emptyInvoiceResult) rfl).1⟩

theorem countIssues_select (t : Table) (cs : List String) (h : "__issues" ∈ cs) :
    countIssues (t.select cs).rows = countIssues t.rows := by
  unfold countIssues Table.select
  rw [List.countP_map]
  apply List.countP_congr
  intro r _
  simp only [Function.comp_apply, decide_eq_decide]
  rw [Row.get_build cs r "__issues" h]

/-- C10: neither entry point modifies the caller's table: with the two
table objects of the source threaded explicitly (`df_in` and the working
copy `df`), the caller's object is unchanged when the call returns. -/
theorem c10_no_caller_mutation :
    (∀ (t : Table) (cfg : Config), (cleanInvoicesTracked t cfg).2 = t) ∧
    (∀ (t : Table) (d : ℤ) (b : Bool) (today : ℤ),
      (cleanStockTracked t d b today).2 = t) := by
  constructor
  · intro t cfg
    unfold cleanInvoicesTracked
    rcases hx : dedupStage cfg
        (negFilterStage cfg.dropNegativeQty
          (tagStage cfg.flagDueBeforeIssue
            (deriveStage (normalizeInvoice (map_headers (Table.copy t)))))).1
      with e | p6 <;> simp [hx]
  · intro t d b today
    rfl

/-- C2 at its failing input (the claim is refuted by the code): a table
whose only column maps to `invoice_id`, with `drop_duplicates` left at
its default, reaches `drop_duplicates(subset=["invoice_id",
"item_description", "line_total"])` with `item_description` absent, and
the pipeline raises `KeyError` instead of returning a result. -/
theorem c2_missing_subset_column_raises :
    clean_invoices ⟨["invoice no"], [[("invoice no", Value.str "A")]]⟩ {} =
      .error "KeyError" := rfl

/-- C1 counterexample: with the negative filter enabled on a one-row
table whose quantity is negative, the tagged table carries one tagged
row, but `errors_fixed` is 0 and `issues_summary` is empty — the
anomaly of the filtered row is not recorded in the summary counts,
contrary to the claim. -/
theorem c1_counterexample :
    clean_invoices ⟨["quantity"], [[("quantity", Value.str "-1")]]⟩
        { dropNegativeQty := true } =
      .ok (getOkInv (clean_invoices ⟨["quantity"], [[("quantity", Value.str "-1")]]⟩
        { dropNegativeQty := true }) emptyInvoiceResult) ∧
    (getOkInv (clean_invoices ⟨["quantity"], [[("quantity", Value.str "-1")]]⟩
        { dropNegativeQty := true }) emptyInvoiceResult).profile.errorsFixed = 0 ∧
    (getOkInv (clean_invoices ⟨["quantity"], [[("quantity", Value.str "-1")]]⟩
        { dropNegativeQty := true }) emptyInvoiceResult).issuesSummary = [] ∧
    countIssues (tagStage true (deriveStage (normalizeInvoice (map_headers
      ⟨["quantity"], [[("quantity", Value.str "-1")]]⟩)))).rows = 1 :=
  ⟨rfl, by with_unfolding_all rfl, by with_unfolding_all rfl,
   by with_unfolding_all rfl⟩

/-- C1 amended: the negative-quantity filter runs after tagging and its
removal count is tracked separately from `duplicates_removed` (they add
up to `rows_in - rows_out`), but `errors_fixed` and `issues_summary`
are computed from the final table, after the filter and the
deduplication, so anomalies of removed rows are not recorded. -/
theorem c1_amended (t : Table) (cfg : Config) (r : InvoiceResult)
    (h : clean_invoices t cfg = .ok r) :
    r.profile.errorsFixed = countIssues r.cleanDf.rows ∧
    r.issuesSummary = issuesSummaryOf r.cleanDf.rows ∧
    r.profile.duplicatesRemoved + r.removedNeg =
      r.profile.rowsIn - r.profile.rowsOut := by
  simp only [clean_invoices, Table.copy] at h
  rcases hx : dedupStage cfg
      (negFilterStage cfg.dropNegativeQty
        (tagStage cfg.flagDueBeforeIssue
          (deriveStage (normalizeInvoice (map_headers t))))).1 with e | p6
  · rw [hx] at h
    simp at h
  · obtain ⟨t6, n6⟩ := p6
    rw [hx] at h
    simp only [Except.ok.injEq] at h
    subst h
    refine ⟨?_, rfl, ?_⟩
    · show countIssues t6.rows =
        countIssues (t6.select (invoiceOrderedCols t6.cols)).rows
      rw [countIssues_select t6 _ (by simp [invoiceOrderedCols])]
    · have hpre := invPrefixTag_length cfg.flagDueBeforeIssue t
      have hneg := negFilterStage_spec cfg.dropNegativeQty
        (tagStage cfg.flagDueBeforeIssue
          (deriveStage (normalizeInvoice (map_headers t))))
      have hded := dedupStage_ok cfg _ t6 n6 hx
      obtain ⟨hn1, hn2, _⟩ := hneg
      obtain ⟨_, hd1, hd2⟩ := hded
      show n6 + (negFilterStage cfg.dropNegativeQty
          (tagStage cfg.flagDueBeforeIssue
            (deriveStage (normalizeInvoice (map_headers t))))).2 =
        t.rows.length - t6.rows.length
      omega

/-- Concrete instantiation of `c1_amended` discharging its hypothesis. -/
theorem c1_amended_witness :
    (clean_invoices ⟨["quantity"], [[("quantity", Value.str "2")]]⟩ {} =
      .ok (getOkInv (clean_invoices ⟨["quantity"], [[("quantity", Value.str "2")]]⟩ {})
        emptyInvoiceResult)) ∧
    ((getOkInv (clean_invoices ⟨["quantity"], [[("quantity", Value.str "2")]]⟩ {})
        emptyInvoiceResult).profile.errorsFixed =
      countIssues (getOkInv (clean_invoices ⟨["quantity"],
        [[("quantity", Value.str "2")]]⟩ {}) emptyInvoiceResult).cleanDf.rows) :=
  ⟨rfl,
   (c1_amended ⟨["quantity"], [[("quantity", Value.str "2")]]⟩ {}
      (getOkInv (clean_invoices ⟨["quantity"], [[("quantity", Value.str "2")]]⟩ {})
        emptyInvoiceResult) rfl).1⟩

theorem setColByRow_rows_getD (t : Table) (c : String) (f : Row → Value) (i : ℕ)
    (hi : i < t.rows.length) :
    (t.setColByRow c f).rows.getD i [] =
    (t.rows.getD i []).set c (f (t.rows.getD i [])) := by
  unfold Table.setColByRow
  simp only [List.getD_eq_getElem?_getD, List.getElem?_map,
    List.getElem?_eq_getElem hi]
  simp

theorem get_setColByRow_getD_ne (t : Table) (c : String) (f : Row → Value)
    (c2 : String) (h : c2 ≠ c) (i : ℕ) (hi : i < t.rows.length) :
    Row.get ((t.setColByRow c f).rows.getD i []) c2 =
    Row.get (t.rows.getD i []) c2 := by
  rw [setColByRow_rows_getD t c f i hi, Row.get_set_ne _ _ _ _ h]

theorem dropColumn_rows_getD (t : Table) (c : String) (i : ℕ)
    (hi : i < t.rows.length) :
    (t.dropColumn c).rows.getD i [] = (t.rows.getD i []).erase c := by
  unfold Table.dropColumn
  simp only [List.getD_eq_getElem?_getD, List.getElem?_map,
    List.getElem?_eq_getElem hi]
  simp

theorem get_dropColumn_getD_ne (t : Table) (c : String) (c2 : String)
    (h : c2 ≠ c) (i : ℕ) (hi : i < t.rows.length) :
    Row.get ((t.dropColumn c).rows.getD i []) c2 =
    Row.get (t.rows.getD i []) c2 := by
  rw [dropColumn_rows_getD t c i hi, Row.get_erase_ne _ _ _ h]

theorem setColByRow_cols (t : Table) (c : String) (f : Row → Value) :
    (t.setColByRow c f).cols = if c ∈ t.cols then t.cols else t.cols ++ [c] := rfl

theorem aggTail_get_keep (x : Table) (c2 : String) (h1 : c2 ≠ "tax_amount")
    (h2 : c2 ≠ "total_amount") (h3 : c2 ≠ "calc_total_before_tax")
    (i : ℕ) (hi : i < x.rows.length) :
    Row.get ((aggTail x).rows.getD i []) c2 = Row.get (x.rows.getD i []) c2 := by
  unfold aggTail
  by_cases htax : "tax_amount" ∈ x.cols <;>
    by_cases hrate : "tax_rate" ∈ x.cols <;>
      by_cases hamt : "total_amount" ∈ x.cols
  all_goals
    try simp only [Table.setColConst, setColByRow_cols, htax, hrate, hamt,
      List.mem_append, List.mem_singleton, String.reduceEq, or_false, false_or,
      or_true, true_or, if_true, if_false, ite_true, ite_false,
      not_false_eq_true, not_true_eq_false]
  all_goals
    repeat
      first
      | rw [get_dropColumn_getD_ne _ "calc_total_before_tax" c2 h3 i
            (by simpa [Table.setColConst, setColByRow_rows_length,
              rows_length_ite] using hi)]
      | rw [get_setColByRow_getD_ne _ "total_amount" _ c2 h2 i
            (by simpa [Table.setColConst, setColByRow_rows_length,
              rows_length_ite] using hi)]
      | rw [get_setColByRow_getD_ne _ "tax_amount" _ c2 h1 i
            (by simpa [Table.setColConst, setColByRow_rows_length,
              rows_length_ite] using hi)]

theorem aggStage_tbt_formula (t : Table) (h : "invoice_id" ∈ t.cols) :
    ∀ i, i < t.rows.length →
      Row.get ((aggStage t).rows.getD i []) "total_before_tax" =
        (if (if "total_before_tax" ∈ t.cols
             then Row.get (t.rows.getD i []) "total_before_tax"
             else Value.null) = Value.null
         then Value.num (groupSum t (Row.get (t.rows.getD i []) "invoice_id"))
         else Row.get (t.rows.getD i []) "total_before_tax") := by
  intro i hi
  unfold aggStage
  rw [if_pos h]
  simp only [aggPrefix]
  by_cases htbt : "total_before_tax" ∈ t.cols
  · rw [if_pos htbt, if_pos htbt]
    rw [aggTail_get_keep _ _ (by decide) (by decide) (by decide) i
      (by simpa [setColByRow_rows_length] using hi)]
    rw [setColByRow_rows_getD _ _ _ i (by simpa [setColByRow_rows_length] using hi)]
    rw [Row.get_set_self]
    rw [setColByRow_rows_getD _ _ _ i hi]
    rw [Row.get_set_ne _ _ _ _ (by decide), Row.get_set_self]
  · rw [if_neg htbt, if_neg htbt]
    rw [aggTail_get_keep _ _ (by decide) (by decide) (by decide) i
      (by simpa [setColByRow_rows_length, Table.setColConst] using hi)]
    rw [setColByRow_rows_getD _ _ _ i
      (by simpa [setColByRow_rows_length, Table.setColConst] using hi)]
    rw [Row.get_set_self]
    rw [setColByRow_rows_getD _ _ _ i
      (by simpa [setColByRow_rows_length, Table.setColConst] using hi)]
    rw [Row.get_set_ne _ _ _ _ (by decide), Row.get_set_self]
    simp only [Table.setColConst]
    rw [setColByRow_rows_getD _ _ _ i hi]
    rw [Row.get_set_self]
    rw [Row.get_set_ne _ _ _ _ (by decide)]
    simp

/-- C3: when `invoice_id` is present, the per-invoice aggregation is
null-inclusive — the group key is the raw `invoice_id` cell, the null
key collecting the rows with null id — and for every row, the rounded
group sum of `line_total` becomes `total_before_tax` exactly when the
existing value is null (a column absent from the table reads as null),
the existing value being kept otherwise. -/
theorem c3_null_inclusive_aggregation (t : Table) (h : "invoice_id" ∈ t.cols) :
    (aggStage t).rows.length = t.rows.length ∧
    ∀ i, i < t.rows.length →
      Row.get ((aggStage t).rows.getD i []) "total_before_tax" =
        (if (if "total_before_tax" ∈ t.cols
             then Row.get (t.rows.getD i []) "total_before_tax"
             else Value.null) = Value.null
         then Value.num (groupSum t (Row.get (t.rows.getD i []) "invoice_id"))
         else Row.get (t.rows.getD i []) "total_before_tax") :=
  ⟨aggStage_rows_length t, aggStage_tbt_formula t h⟩

/-- Concrete instantiation of `c3_null_inclusive_aggregation`: two rows
of invoice "A" with line totals 2 and 3 and null `total_before_tax`
get the rounded group sum 5 filled in. -/
theorem c3_null_inclusive_aggregation_witness :
    ("invoice_id" ∈
      (⟨["invoice_id", "line_total", "total_before_tax"],
        [[("invoice_id", Value.str "A"), ("line_total", Value.num 2),
          ("total_before_tax", Value.null)],
         [("invoice_id", Value.str "A"), ("line_total", Value.num 3),
          ("total_before_tax", Value.null)]]⟩ : Table).cols ∧
     0 < (⟨["invoice_id", "line_total", "total_before_tax"],
        [[("invoice_id", Value.str "A"), ("line_total", Value.num 2),
          ("total_before_tax", Value.null)],
         [("invoice_id", Value.str "A"), ("line_total", Value.num 3),
          ("total_before_tax", Value.null)]]⟩ : Table).rows.length) ∧
    Row.get ((aggStage
      ⟨["invoice_id", "line_total", "total_before_tax"],
        [[("invoice_id", Value.str "A"), ("line_total", Value.num 2),
          ("total_before_tax", Value.null)],
         [("invoice_id", Value.str "A"), ("line_total", Value.num 3),
          ("total_before_tax", Value.null)]]⟩).rows.getD 0 [])
      "total_before_tax" = Value.num 5 :=
  ⟨⟨by decide, by decide⟩,
   ((c3_null_inclusive_aggregation
      ⟨["invoice_id", "line_total", "total_before_tax"],
        [[("invoice_id", Value.str "A"), ("line_total", Value.num 2),
          ("total_before_tax", Value.null)],
         [("invoice_id", Value.str "A"), ("line_total", Value.num 3),
          ("total_before_tax", Value.null)]]⟩ (by decide)).2 0 (by decide)).trans
     (by with_unfolding_all rfl)⟩

theorem aggStage_get_keep (t : Table) (c2 : String)
    (h1 : c2 ≠ "total_before_tax") (h2 : c2 ≠ "calc_total_before_tax")
    (h3 : c2 ≠ "tax_amount") (h4 : c2 ≠ "total_amount")
    (i : ℕ) (hi : i < t.rows.length) :
    Row.get ((aggStage t).rows.getD i []) c2 = Row.get (t.rows.getD i []) c2 := by
  unfold aggStage
  by_cases hinv : "invoice_id" ∈ t.cols
  · rw [if_pos hinv]
    simp only [aggPrefix]
    by_cases htbt : "total_before_tax" ∈ t.cols
    · rw [if_pos htbt]
      rw [aggTail_get_keep _ _ h3 h4 h2 i (by simpa [setColByRow_rows_length] using hi)]
      rw [get_setColByRow_getD_ne _ _ _ _ h1 i (by simpa [setColByRow_rows_length] using hi)]
      rw [get_setColByRow_getD_ne _ _ _ _ h2 i hi]
    · rw [if_neg htbt]
      rw [aggTail_get_keep _ _ h3 h4 h2 i
        (by simpa [setColByRow_rows_length, Table.setColConst] using hi)]
      rw [get_setColByRow_getD_ne _ _ _ _ h1 i
        (by simpa [setColByRow_rows_length, Table.setColConst] using hi)]
      rw [get_setColByRow_getD_ne _ _ _ _ h2 i
        (by simpa [setColByRow_rows_length, Table.setColConst] using hi)]
      simp only [Table.setColConst]
      rw [get_setColByRow_getD_ne _ _ _ _ h1 i hi]
  · rw [if_neg hinv]

theorem mem_setColByRow_cols (t : Table) (c : String) (f : Row → Value)
    (c2 : String) (h : c2 ∈ t.cols) : c2 ∈ (t.setColByRow c f).cols := by
  rw [setColByRow_cols]
  split_ifs <;> simp [h]

theorem mem_lineTotalStage_cols (t : Table) (c2 : String) (h : c2 ∈ t.cols) :
    c2 ∈ (lineTotalStage t).cols := by
  unfold lineTotalStage
  split_ifs <;>
    exact mem_setColByRow_cols _ _ _ _ (by first
      | exact h
      | exact mem_setColByRow_cols _ _ _ _ h)

theorem aggTail_get_fillkeep_tax (x : Table) (hcc : "tax_amount" ∈ x.cols)
    (i : ℕ) (hi : i < x.rows.length)
    (hnn : Row.get (x.rows.getD i []) "tax_amount" ≠ Value.null) :
    Row.get ((aggTail x).rows.getD i []) "tax_amount" =
    Row.get (x.rows.getD i []) "tax_amount" := by
  simp only [aggTail]
  rw [if_pos hcc]
  by_cases hrate : "tax_rate" ∈ x.cols
  · rw [if_pos hrate]
    split_ifs with hamt
    · rw [get_dropColumn_getD_ne _ _ _ (by decide) i
        (by simpa [setColByRow_rows_length] using hi)]
      rw [get_setColByRow_getD_ne _ "total_amount" _ _ (by decide) i
        (by simpa [setColByRow_rows_length] using hi)]
      rw [setColByRow_rows_getD _ _ _ i hi, Row.get_set_self]
      rw [if_neg hnn]
    · simp only [Table.setColConst]
      rw [get_dropColumn_getD_ne _ _ _ (by decide) i
        (by simpa [setColByRow_rows_length] using hi)]
      rw [get_setColByRow_getD_ne _ "total_amount" _ _ (by decide) i
        (by simpa [setColByRow_rows_length] using hi)]
      rw [get_setColByRow_getD_ne _ "total_amount" _ _ (by decide) i
        (by simpa [setColByRow_rows_length] using hi)]
      rw [setColByRow_rows_getD _ _ _ i hi, Row.get_set_self]
      rw [if_neg hnn]
  · rw [if_neg hrate]
    split_ifs with hamt
    · rw [get_dropColumn_getD_ne _ _ _ (by decide) i
        (by simpa [setColByRow_rows_length] using hi)]
      rw [get_setColByRow_getD_ne _ "total_amount" _ _ (by decide) i hi]
    · simp only [Table.setColConst]
      rw [get_dropColumn_getD_ne _ _ _ (by decide) i
        (by simpa [setColByRow_rows_length] using hi)]
      rw [get_setColByRow_getD_ne _ "total_amount" _ _ (by decide) i
        (by simpa [setColByRow_rows_length] using hi)]
      rw [get_setColByRow_getD_ne _ "total_amount" _ _ (by decide) i hi]

theorem aggTail_get_fillkeep_amt (x : Table) (hcc : "total_amount" ∈ x.cols)
    (i : ℕ) (hi : i < x.rows.length)
    (hnn : Row.get (x.rows.getD i []) "total_amount" ≠ Value.null) :
    Row.get ((aggTail x).rows.getD i []) "total_amount" =
    Row.get (x.rows.getD i []) "total_amount" := by
  simp only [aggTail]
  by_cases htax : "tax_amount" ∈ x.cols
  · rw [if_pos htax]
    by_cases hrate : "tax_rate" ∈ x.cols
    · rw [if_pos hrate]
      rw [if_pos (mem_setColByRow_cols _ _ _ _ hcc)]
      rw [get_dropColumn_getD_ne _ _ _ (by decide) i
        (by simpa [setColByRow_rows_length] using hi)]
      rw [setColByRow_rows_getD _ _ _ i
        (by simpa [setColByRow_rows_length] using hi), Row.get_set_self]
      rw [get_setColByRow_getD_ne _ "tax_amount" _ _ (by decide) i hi]
      rw [if_neg hnn]
    · rw [if_neg hrate, if_pos hcc]
      rw [get_dropColumn_getD_ne _ _ _ (by decide) i
        (by simpa [setColByRow_rows_length] using hi)]
      rw [setColByRow_rows_getD _ _ _ i hi, Row.get_set_self]
      rw [if_neg hnn]
  · rw [if_neg htax]
    simp only [Table.setColConst]
    by_cases hrate : "tax_rate" ∈ (x.setColByRow "tax_amount" (fun _ => Value.null)).cols
    · rw [if_pos hrate]
      rw [if_pos (mem_setColByRow_cols _ _ _ _ (mem_setColByRow_cols _ _ _ _ hcc))]
      rw [get_dropColumn_getD_ne _ _ _ (by decide) i
        (by simpa [setColByRow_rows_length] using hi)]
      rw [setColByRow_rows_getD _ _ _ i
        (by simpa [setColByRow_rows_length] using hi), Row.get_set_self]
      rw [get_setColByRow_getD_ne _ "tax_amount" _ _ (by decide) i
        (by simpa [setColByRow_rows_length] using hi)]
      rw [get_setColByRow_getD_ne _ "tax_amount" _ _ (by decide) i hi]
      rw [if_neg hnn]
    · rw [if_neg hrate]
      rw [if_pos (mem_setColByRow_cols _ _ _ _ hcc)]
      rw [get_dropColumn_getD_ne _ _ _ (by decide) i
        (by simpa [setColByRow_rows_length] using hi)]
      rw [setColByRow_rows_getD _ _ _ i
        (by simpa [setColByRow_rows_length] using hi), Row.get_set_self]
      rw [get_setColByRow_getD_ne _ "tax_amount" _ _ (by decide) i hi]
      rw [if_neg hnn]

theorem aggPrefix_get_keep (t : Table) (c2 : String)
    (h1 : c2 ≠ "total_before_tax") (h2 : c2 ≠ "calc_total_before_tax")
    (i : ℕ) (hi : i < t.rows.length) :
    Row.get ((aggPrefix t).rows.getD i []) c2 = Row.get (t.rows.getD i []) c2 := by
  simp only [aggPrefix]
  split_ifs with htbt
  · rw [get_setColByRow_getD_ne _ _ _ _ h1 i
      (by simpa [setColByRow_rows_length] using hi)]
    rw [get_setColByRow_getD_ne _ _ _ _ h2 i hi]
  · simp only [Table.setColConst]
    rw [get_setColByRow_getD_ne _ _ _ _ h1 i
      (by simpa [setColByRow_rows_length] using hi)]
    rw [get_setColByRow_getD_ne _ _ _ _ h2 i
      (by simpa [setColByRow_rows_length] using hi)]
    rw [get_setColByRow_getD_ne _ _ _ _ h1 i hi]

theorem mem_aggPrefix_cols (t : Table) (c2 : String) (h : c2 ∈ t.cols) :
    c2 ∈ (aggPrefix t).cols := by
  simp only [aggPrefix, Table.setColConst]
  split_ifs with htbt
  · exact mem_setColByRow_cols _ _ _ _ (mem_setColByRow_cols _ _ _ _ h)
  · exact mem_setColByRow_cols _ _ _ _ (mem_setColByRow_cols _ _ _ _
      (mem_setColByRow_cols _ _ _ _ h))

theorem lineTotalStage_get_keep (t : Table) (c2 : String)
    (h : c2 ≠ "line_total") (i : ℕ) (hi : i < t.rows.length) :
    Row.get ((lineTotalStage t).rows.getD i []) c2 =
    Row.get (t.rows.getD i []) c2 := by
  unfold lineTotalStage
  split_ifs with hlt
  · rw [get_setColByRow_getD_ne _ _ _ _ h i hi]
  · simp only [Table.setColConst]
    rw [get_setColByRow_getD_ne _ _ _ _ h i
      (by simpa [setColByRow_rows_length] using hi)]
    rw [get_setColByRow_getD_ne _ _ _ _ h i hi]

theorem lineTotalStage_get_lt (t : Table) (i : ℕ) (hi : i < t.rows.length) :
    Row.get ((lineTotalStage t).rows.getD i []) "line_total" =
      (match parse_number (Row.get (t.rows.getD i []) "quantity"),
             parse_number (Row.get (t.rows.getD i []) "unit_price") with
       | some q, some p => Value.num (round2 (q * p))
       | _, _ => parseNumCell (if "line_total" ∈ t.cols
                               then Row.get (t.rows.getD i []) "line_total"
                               else Value.null)) := by
  unfold lineTotalStage
  split_ifs with hlt
  · rw [setColByRow_rows_getD _ _ _ i hi, Row.get_set_self]
    unfold compute_line_total
    rfl
  · simp only [Table.setColConst]
    rw [setColByRow_rows_getD _ _ _ i
      (by simpa [setColByRow_rows_length] using hi)]
    rw [Row.get_set_self]
    rw [setColByRow_rows_getD _ _ _ i hi]
    unfold compute_line_total
    rw [Row.get_set_ne (t.rows.getD i []) "line_total" "quantity" Value.null
      (by decide)]
    rw [Row.get_set_ne (t.rows.getD i []) "line_total" "unit_price" Value.null
      (by decide)]
    rw [Row.get_set_self]

/-- C7: in the derivation phase, an existing non-null
`total_before_tax`, `tax_amount` or `total_amount` cell is never
overwritten, while `line_total` is always recomputed as
`round(quantity * unit_price, 2)` when both parse to non-null values,
falling back to the parsed existing `line_total` otherwise. -/
theorem c7_derivation_policy (t : Table) :
    (deriveStage t).rows.length = t.rows.length ∧
    (∀ i, i < t.rows.length →
      Row.get ((deriveStage t).rows.getD i []) "line_total" =
        (match parse_number (Row.get (t.rows.getD i []) "quantity"),
               parse_number (Row.get (t.rows.getD i []) "unit_price") with
         | some q, some p => Value.num (round2 (q * p))
         | _, _ => parseNumCell (if "line_total" ∈ t.cols
                                 then Row.get (t.rows.getD i []) "line_total"
                                 else Value.null))) ∧
    (∀ i, i < t.rows.length →
      ∀ c ∈ (["total_before_tax", "tax_amount", "total_amount"] : List String),
      c ∈ t.cols → Row.get (t.rows.getD i []) c ≠ Value.null →
      Row.get ((deriveStage t).rows.getD i []) c =
        Row.get (t.rows.getD i []) c) := by
  refine ⟨deriveStage_rows_length t, ?_, ?_⟩
  · intro i hi
    unfold deriveStage
    rw [aggStage_get_keep _ _ (by decide) (by decide) (by decide) (by decide) i
      (by simpa [lineTotalStage_rows_length] using hi)]
    exact lineTotalStage_get_lt t i hi
  · intro i hi c hc hcol hnn
    have hi1 : i < (lineTotalStage t).rows.length := by
      simpa [lineTotalStage_rows_length] using hi
    have hkeepL : ∀ c2, c2 ≠ "line_total" →
        Row.get ((lineTotalStage t).rows.getD i []) c2 =
        Row.get (t.rows.getD i []) c2 :=
      fun c2 hne => lineTotalStage_get_keep t c2 hne i hi
    simp only [List.mem_cons, List.not_mem_nil, or_false] at hc
    unfold deriveStage
    by_cases hinv : "invoice_id" ∈ (lineTotalStage t).cols
    · rcases hc with rfl | rfl | rfl
      · have hmem : "total_before_tax" ∈ (lineTotalStage t).cols :=
          mem_lineTotalStage_cols t _ hcol
        have hval : Row.get ((lineTotalStage t).rows.getD i [])
            "total_before_tax" = Row.get (t.rows.getD i []) "total_before_tax" :=
          hkeepL _ (by decide)
        rw [aggStage_tbt_formula (lineTotalStage t) hinv i hi1, if_pos hmem, hval,
          if_neg hnn]
      · unfold aggStage
        rw [if_pos hinv]
        have hi2 : i < (aggPrefix (lineTotalStage t)).rows.length := by
          simpa [aggPrefix_rows_length] using hi1
        have hval : Row.get ((aggPrefix (lineTotalStage t)).rows.getD i [])
            "tax_amount" = Row.get (t.rows.getD i []) "tax_amount" := by
          rw [aggPrefix_get_keep _ _ (by decide) (by decide) i hi1]
          exact hkeepL _ (by decide)
        rw [aggTail_get_fillkeep_tax _
          (mem_aggPrefix_cols _ _ (mem_lineTotalStage_cols t _ hcol)) i hi2
          (by rw [hval]; exact hnn)]
        exact hval
      · unfold aggStage
        rw [if_pos hinv]
        have hi2 : i < (aggPrefix (lineTotalStage t)).rows.length := by
          simpa [aggPrefix_rows_length] using hi1
        have hval : Row.get ((aggPrefix (lineTotalStage t)).rows.getD i [])
            "total_amount" = Row.get (t.rows.getD i []) "total_amount" := by
          rw [aggPrefix_get_keep _ _ (by decide) (by decide) i hi1]
          exact hkeepL _ (by decide)
        rw [aggTail_get_fillkeep_amt _
          (mem_aggPrefix_cols _ _ (mem_lineTotalStage_cols t _ hcol)) i hi2
          (by rw [hval]; exact hnn)]
        exact hval
    · unfold aggStage
      rw [if_neg hinv]
      rcases hc with rfl | rfl | rfl <;> exact hkeepL _ (by decide)

/-- Concrete instantiation of `c7_derivation_policy`: an existing
non-null `total_amount` survives the derivation phase unchanged. -/
theorem c7_derivation_policy_witness :
    (0 < (⟨["invoice_id", "total_amount"],
        [[("invoice_id", Value.str "A"), ("total_amount", Value.num 7)]]⟩ :
        Table).rows.length ∧
     "total_amount" ∈ (⟨["invoice_id", "total_amount"],
        [[("invoice_id", Value.str "A"), ("total_amount", Value.num 7)]]⟩ :
        Table).cols ∧
     Row.get ((⟨["invoice_id", "total_amount"],
        [[("invoice_id", Value.str "A"), ("total_amount", Value.num 7)]]⟩ :
        Table).rows.getD 0 []) "total_amount" ≠ Value.null) ∧
    Row.get ((deriveStage ⟨["invoice_id", "total_amount"],
        [[("invoice_id", Value.str "A"), ("total_amount", Value.num 7)]]⟩).rows.getD
      0 []) "total_amount" =
    Row.get ((⟨["invoice_id", "total_amount"],
        [[("invoice_id", Value.str "A"), ("total_amount", Value.num 7)]]⟩ :
        Table).rows.getD 0 []) "total_amount" :=
  ⟨⟨by decide, by decide, by decide⟩,
   (c7_derivation_policy ⟨["invoice_id", "total_amount"],
      [[("invoice_id", Value.str "A"), ("total_amount", Value.num 7)]]⟩).2.2
     0 (by decide) "total_amount" (by decide) (by decide) (by decide)⟩

theorem normStep_cols_mem (t : Table) (col c2 : String) (h : c2 ∈ t.cols) :
    c2 ∈ (normStep t col).cols := by
  unfold normStep
  simp only [Table.mapColumn, Table.setColConst]
  split_ifs <;> first
    | exact h
    | exact mem_setColByRow_cols _ _ _ _ h

theorem normalizeInvoice_cols_mem (t : Table) (c2 : String) (h : c2 ∈ t.cols) :
    c2 ∈ (normalizeInvoice t).cols := by
  unfold normalizeInvoice
  generalize t.cols = cs
  induction cs generalizing t with
  | nil => simpa using h
  | cons c cs ih =>
    simpa [List.foldl_cons] using ih (normStep t c) (normStep_cols_mem t c c2 h)

/-- C8: the typed parsers are total: on every cell value they return a
number (respectively an ISO date string) or null — never any other
shape and never an exception, the latter modelled by totality in
`Option`/`Value`; blank input always yields null; and the
normalization phase preserves the row count and never removes a
column. -/
theorem c8_parsers_total :
    (∀ v : Value, parse_number v = none ∨ ∃ q, parse_number v = some q) ∧
    (∀ v : Value, parse_date v = .null ∨ ∃ s, parse_date v = .str s) ∧
    (∀ s : String, trimWs s.data = [] → parse_number (.str s) = none) ∧
    (∀ s : String, trimWs s.data = [] → parse_date (.str s) = .null) ∧
    (∀ t : Table, (normalizeInvoice t).rows.length = t.rows.length ∧
      ∀ c ∈ t.cols, c ∈ (normalizeInvoice t).cols) := by
  refine ⟨?_, ?_, ?_, ?_, ?_⟩
  · intro v
    rcases v with _ | s | q
    · exact Or.inl rfl
    · rcases h : parseNumStr s with _ | q
      · exact Or.inl (by simp [parse_number, h])
      · exact Or.inr ⟨q, by simp [parse_number, h]⟩
    · exact Or.inr ⟨q, rfl⟩
  · intro v
    rcases v with _ | s | q
    · exact Or.inl rfl
    · have he : parse_date (Value.str s) =
          (if trimWs (pyStr (Value.str s)).data = [] then Value.null
           else match dateModelParse (pyStr (Value.str s)) with
                | some iso => Value.str iso
                | none => Value.null) := rfl
      rw [he]
      split_ifs with h
      · exact Or.inl rfl
      · rcases hd : dateModelParse (pyStr (Value.str s)) with _ | iso
        · exact Or.inl (by simp [hd])
        · exact Or.inr ⟨iso, by simp [hd]⟩
    · have he : parse_date (Value.num q) =
          (if trimWs (pyStr (Value.num q)).data = [] then Value.null
           else match dateModelParse (pyStr (Value.num q)) with
                | some iso => Value.str iso
                | none => Value.null) := rfl
      rw [he]
      split_ifs with h
      · exact Or.inl rfl
      · rcases hd : dateModelParse (pyStr (Value.num q)) with _ | iso
        · exact Or.inl (by simp [hd])
        · exact Or.inr ⟨iso, by simp [hd]⟩
  · intro s h
    simp [parse_number, parseNumStr, h]
  · intro s h
    have he : parse_date (Value.str s) =
        (if trimWs (pyStr (Value.str s)).data = [] then Value.null
         else match dateModelParse (pyStr (Value.str s)) with
              | some iso => Value.str iso
              | none => Value.null) := rfl
    rw [he]
    simp [pyStr, h]
  · intro t
    exact ⟨normalizeInvoice_rows_length t,
      fun c hc => normalizeInvoice_cols_mem t c hc⟩

/-- Concrete instantiation of `c8_parsers_total`: whitespace input
parses to null, and normalization keeps the `quantity` column. -/
theorem c8_parsers_total_witness :
    (trimWs ("  ".data) = [] ∧ parse_number (.str "  ") = none) ∧
    ("quantity" ∈ (⟨["quantity"], []⟩ : Table).cols ∧
     "quantity" ∈ (normalizeInvoice ⟨["quantity"], []⟩).cols) :=
  ⟨⟨by decide, c8_parsers_total.2.2.1 "  " (by decide)⟩,
   ⟨by decide,
    (c8_parsers_total.2.2.2.2 ⟨["quantity"], []⟩).2 "quantity" (by decide)⟩⟩

/-- C9 counterexample: the claim's consequence fails — applying the
header mapper twice is not the same as applying it once.  The label
"invoice num" is not a synonym key, so one application yields the
passthrough "invoice_num"; but "invoice_num" is a synonym key, so the
second application turns it into "invoice_id". -/
theorem c9_counterexample :
    (map_headers (map_headers ⟨["invoice num"], []⟩)).cols ≠
    (map_headers ⟨["invoice num"], []⟩).cols := by
  with_unfolding_all decide

/-- C9 amended: the header mappers are idempotent on canonical form —
every canonical column name of the invoice schema and of the stock
schema (including the reserved issues column) is mapped to itself —
but mapping an arbitrary table twice can differ from mapping it once
(a passthrough result such as "invoice_num" can itself be a synonym
key). -/
theorem c9_amended :
    (CANONICAL_ORDER.all (fun c => invMapLabel c == c)) = true ∧
    (CANONICAL_ORDER_STOCK.all (fun c => stockMapLabel c == c)) = true ∧
    invMapLabel "__issues" = "__issues" := by
  refine ⟨?_, ?_, ?_⟩ <;> with_unfolding_all decide

theorem invoiceOrderedCols_spec (cs : List String) :
    (invoiceOrderedCols cs).count "__issues" = 1 ∧
    (invoiceOrderedCols cs).getLast? = some "__issues" ∧
    invoiceOrderedCols cs =
      CANONICAL_ORDER.filter (fun c => c ∈ invoiceOrderedCols cs) ++
      (invoiceOrderedCols cs).filter
        (fun c => decide (c ∉ CANONICAL_ORDER ∧ c ≠ "__issues")) ++
      ["__issues"] := by
  refine ⟨?_, ?_, ?_⟩
  · unfold invoiceOrderedCols
    rw [List.count_append, List.count_append]
    have hA : ("__issues" : String) ∉
        CANONICAL_ORDER.filter (fun c => decide (c ∈ cs)) := by
      intro hmem
      have h1 := (List.mem_filter.mp hmem).1
      revert h1
      decide
    have hB : ("__issues" : String) ∉
        cs.filter (fun c => decide (c ∉ CANONICAL_ORDER ∧ c ≠ "__issues")) := by
      intro hmem
      have h2 := (List.mem_filter.mp hmem).2
      simp at h2
    rw [List.count_eq_zero.mpr hA, List.count_eq_zero.mpr hB]
    simp
  · unfold invoiceOrderedCols
    exact List.getLast?_concat _
  · have hmemiff : ∀ c ∈ CANONICAL_ORDER,
        (decide (c ∈ invoiceOrderedCols cs)) = (decide (c ∈ cs)) := by
      intro c hc
      rw [decide_eq_decide]
      constructor
      · intro hco
        unfold invoiceOrderedCols at hco
        rcases List.mem_append.mp hco with hco | hco
        · rcases List.mem_append.mp hco with hco | hco
          · simpa using (List.mem_filter.mp hco).2
          · exact (List.mem_filter.mp hco).1
        · have hcq : c = "__issues" := by simpa using hco
          subst hcq
          exact absurd hc (by decide)
      · intro hcs
        unfold invoiceOrderedCols
        refine List.mem_append.mpr (Or.inl (List.mem_append.mpr (Or.inl ?_)))
        exact List.mem_filter.mpr ⟨hc, by simpa using hcs⟩
    have h1 : CANONICAL_ORDER.filter (fun c => decide (c ∈ invoiceOrderedCols cs)) =
        CANONICAL_ORDER.filter (fun c => decide (c ∈ cs)) :=
      List.filter_congr hmemiff
    have h2 : (invoiceOrderedCols cs).filter
        (fun c => decide (c ∉ CANONICAL_ORDER ∧ c ≠ "__issues")) =
        cs.filter (fun c => decide (c ∉ CANONICAL_ORDER ∧ c ≠ "__issues")) := by
      conv_lhs => rw [invoiceOrderedCols]
      rw [List.filter_append, List.filter_append]
      have hA0 : (CANONICAL_ORDER.filter (fun c => decide (c ∈ cs))).filter
          (fun c => decide (c ∉ CANONICAL_ORDER ∧ c ≠ "__issues")) = [] := by
        rw [List.filter_eq_nil_iff]
        intro a ha
        have h1 := (List.mem_filter.mp ha).1
        simp [h1]
      have hB0 : (cs.filter (fun c => decide (c ∉ CANONICAL_ORDER ∧ c ≠ "__issues"))).filter
          (fun c => decide (c ∉ CANONICAL_ORDER ∧ c ≠ "__issues")) =
          cs.filter (fun c => decide (c ∉ CANONICAL_ORDER ∧ c ≠ "__issues")) := by
        rw [List.filter_filter]
        apply List.filter_congr
        intro a _
        simp [Bool.and_self]
      have hI : (["__issues"] : List String).filter
          (fun c => decide (c ∉ CANONICAL_ORDER ∧ c ≠ "__issues")) = [] := by
        decide
      rw [hA0, hB0, hI]
      simp
    rw [h1, h2]
    rfl

theorem stockOrderedCols_spec (cs : List String) (hin : "__issues" ∈ cs) :
    (stockOrderedCols cs).count "__issues" = 2 ∧
    (stockOrderedCols cs).getLast? = some "__issues" ∧
    stockOrderedCols cs =
      CANONICAL_ORDER_STOCK.filter (fun c => c ∈ stockOrderedCols cs) ++
      (stockOrderedCols cs).filter
        (fun c => decide (c ∉ CANONICAL_ORDER_STOCK ∧
          c ≠ INTERNAL_ISSUES_COL ∧ c ≠ INTERNAL_EXP_DATE_COL)) ++
      ["__issues"] := by
  refine ⟨?_, ?_, ?_⟩
  · unfold stockOrderedCols
    rw [List.count_append, List.count_append]
    have hA : (CANONICAL_ORDER_STOCK.filter (fun c => decide (c ∈ cs))).count
        "__issues" = 1 := by
      rw [List.count_filter (by simpa using hin)]
      decide
    have hB : ("__issues" : String) ∉
        cs.filter (fun c => decide (c ∉ CANONICAL_ORDER_STOCK ∧
          c ≠ INTERNAL_ISSUES_COL ∧ c ≠ INTERNAL_EXP_DATE_COL)) := by
      intro hmem
      have h2 := (List.mem_filter.mp hmem).2
      simp at h2
      exact h2.1 (by decide)
    rw [hA, List.count_eq_zero.mpr hB]
    simp
  · unfold stockOrderedCols
    exact List.getLast?_concat _
  · have hmemiff : ∀ c ∈ CANONICAL_ORDER_STOCK,
        (decide (c ∈ stockOrderedCols cs)) = (decide (c ∈ cs)) := by
      intro c hc
      rw [decide_eq_decide]
      constructor
      · intro hco
        unfold stockOrderedCols at hco
        rcases List.mem_append.mp hco with hco | hco
        · rcases List.mem_append.mp hco with hco | hco
          · simpa using (List.mem_filter.mp hco).2
          · exact (List.mem_filter.mp hco).1
        · have hcq : c = "__issues" := by simpa using hco
          subst hcq
          exact hin
      · intro hcs
        unfold stockOrderedCols
        refine List.mem_append.mpr (Or.inl (List.mem_append.mpr (Or.inl ?_)))
        exact List.mem_filter.mpr ⟨hc, by simpa using hcs⟩
    have h1 : CANONICAL_ORDER_STOCK.filter
        (fun c => decide (c ∈ stockOrderedCols cs)) =
        CANONICAL_ORDER_STOCK.filter (fun c => decide (c ∈ cs)) :=
      List.filter_congr hmemiff
    have h2 : (stockOrderedCols cs).filter
        (fun c => decide (c ∉ CANONICAL_ORDER_STOCK ∧
          c ≠ INTERNAL_ISSUES_COL ∧ c ≠ INTERNAL_EXP_DATE_COL)) =
        cs.filter (fun c => decide (c ∉ CANONICAL_ORDER_STOCK ∧
          c ≠ INTERNAL_ISSUES_COL ∧ c ≠ INTERNAL_EXP_DATE_COL)) := by
      conv_lhs => rw [stockOrderedCols]
      rw [List.filter_append, List.filter_append]
      have hA0 : (CANONICAL_ORDER_STOCK.filter (fun c => decide (c ∈ cs))).filter
          (fun c => decide (c ∉ CANONICAL_ORDER_STOCK ∧
            c ≠ INTERNAL_ISSUES_COL ∧ c ≠ INTERNAL_EXP_DATE_COL)) = [] := by
        rw [List.filter_eq_nil_iff]
        intro a ha
        have h1 := (List.mem_filter.mp ha).1
        simp [h1]
      have hB0 : (cs.filter (fun c => decide (c ∉ CANONICAL_ORDER_STOCK ∧
            c ≠ INTERNAL_ISSUES_COL ∧ c ≠ INTERNAL_EXP_DATE_COL))).filter
          (fun c => decide (c ∉ CANONICAL_ORDER_STOCK ∧
            c ≠ INTERNAL_ISSUES_COL ∧ c ≠ INTERNAL_EXP_DATE_COL)) =
          cs.filter (fun c => decide (c ∉ CANONICAL_ORDER_STOCK ∧
            c ≠ INTERNAL_ISSUES_COL ∧ c ≠ INTERNAL_EXP_DATE_COL)) := by
        rw [List.filter_filter]
        apply List.filter_congr
        intro a _
        simp [Bool.and_self]
      have hI : (["__issues"] : List String).filter
          (fun c => decide (c ∉ CANONICAL_ORDER_STOCK ∧
            c ≠ INTERNAL_ISSUES_COL ∧ c ≠ INTERNAL_EXP_DATE_COL)) = [] := by
        decide
      rw [hA0, hB0, hI]
      simp
    rw [h1, h2]
    rfl

theorem mem_setColByRow_self (t : Table) (c : String) (f : Row → Value) :
    c ∈ (t.setColByRow c f).cols := by
  rw [setColByRow_cols]
  split_ifs with h
  · exact h
  · simp

theorem stockOrderedCols_no_internal (cs : List String) :
    ∀ x ∈ stockOrderedCols cs,
      x ≠ INTERNAL_ISSUES_COL ∧ x ≠ INTERNAL_EXP_DATE_COL := by
  intro x hx
  unfold stockOrderedCols at hx
  rcases List.mem_append.mp hx with hx | hx
  · rcases List.mem_append.mp hx with hx | hx
    · have h1 := (List.mem_filter.mp hx).1
      have hall : ∀ y ∈ CANONICAL_ORDER_STOCK,
          y ≠ INTERNAL_ISSUES_COL ∧ y ≠ INTERNAL_EXP_DATE_COL := by decide
      exact hall x h1
    · have h2 := (List.mem_filter.mp hx).2
      simp only [decide_eq_true_eq] at h2
      exact ⟨h2.2.1, h2.2.2⟩
  · have hxq : x = "__issues" := by simpa using hx
    subst hxq
    exact ⟨by decide, by decide⟩

/-- C5 counterexample: for `clean_stock` the issues column appears
twice in the output (it is listed in `CANONICAL_ORDER_STOCK` and then
appended again), so it is not there "exactly once". -/
theorem c5_counterexample :
    ((clean_stock ⟨["sku"], [[("sku", Value.str "X")]]⟩ 30 false 0).cleanDf.cols.count
      "__issues") = 2 := by
  with_unfolding_all decide

/-- C5 amended: the cleaned table's columns are the known canonical
columns present, in the fixed canonical order, then the surviving
unknown columns, then the issues column last.  For `clean_invoices`
the issues column appears exactly once (and last); for `clean_stock`
it appears twice, once inside the canonical prefix (it is listed in
`CANONICAL_ORDER_STOCK`) and once appended last. -/
theorem c5_column_order :
    (∀ (t : Table) (cfg : Config) (r : InvoiceResult),
      clean_invoices t cfg = .ok r →
      r.cleanDf.cols.count "__issues" = 1 ∧
      r.cleanDf.cols.getLast? = some "__issues" ∧
      r.cleanDf.cols =
        CANONICAL_ORDER.filter (fun c => c ∈ r.cleanDf.cols) ++
        r.cleanDf.cols.filter
          (fun c => decide (c ∉ CANONICAL_ORDER ∧ c ≠ "__issues")) ++
        ["__issues"]) ∧
    (∀ (t : Table) (d : ℤ) (b : Bool) (today : ℤ),
      (clean_stock t d b today).cleanDf.cols.count "__issues" = 2 ∧
      (clean_stock t d b today).cleanDf.cols.getLast? = some "__issues" ∧
      (clean_stock t d b today).cleanDf.cols =
        CANONICAL_ORDER_STOCK.filter
          (fun c => c ∈ (clean_stock t d b today).cleanDf.cols) ++
        (clean_stock t d b today).cleanDf.cols.filter
          (fun c => decide (c ∉ CANONICAL_ORDER_STOCK ∧
            c ≠ INTERNAL_ISSUES_COL ∧ c ≠ INTERNAL_EXP_DATE_COL)) ++
        ["__issues"]) := by
  constructor
  · intro t cfg r h
    simp only [clean_invoices, Table.copy] at h
    rcases hx : dedupStage cfg
        (negFilterStage cfg.dropNegativeQty
          (tagStage cfg.flagDueBeforeIssue
            (deriveStage (normalizeInvoice (map_headers t))))).1 with e | p6
    · rw [hx] at h
      simp at h
    · obtain ⟨t6, n6⟩ := p6
      rw [hx] at h
      simp only [Except.ok.injEq] at h
      subst h
      exact invoiceOrderedCols_spec t6.cols
  · intro t d b today
    have hiss : "__issues" ∈
        ((stockNegFilter b (stockTagStage today (today + d)
          (stockNormStage (stockMapHeaders t)))).1.setColByRow "__issues"
          (fun r => r.get INTERNAL_ISSUES_COL)).cols :=
      mem_setColByRow_self _ _ _
    have hcols : (clean_stock t d b today).cleanDf.cols =
        stockOrderedCols
          ((stockNegFilter b (stockTagStage today (today + d)
            (stockNormStage (stockMapHeaders t)))).1.setColByRow "__issues"
            (fun r => r.get INTERNAL_ISSUES_COL)).cols := by
      simp only [clean_stock, Table.copy, Table.dropColumn, Table.select]
      rw [List.filter_eq_self.mpr, List.filter_eq_self.mpr]
      · intro a ha
        simpa using (stockOrderedCols_no_internal _ a ha).1
      · intro a ha
        have ha2 : a ∈ stockOrderedCols _ := (List.mem_filter.mp ha).1
        simpa using (stockOrderedCols_no_internal _ a ha2).2
    rw [hcols]
    exact stockOrderedCols_spec _ hiss

/-- Concrete instantiation of `c5_column_order` discharging the
`Except` hypothesis of the invoice part. -/
theorem c5_column_order_witness :
    (clean_invoices ⟨["quantity"], [[("quantity", Value.str "2")]]⟩ {} =
      .ok (getOkInv (clean_invoices ⟨["quantity"], [[("quantity", Value.str "2")]]⟩ {})
        emptyInvoiceResult)) ∧
    (getOkInv (clean_invoices ⟨["quantity"], [[("quantity", Value.str "2")]]⟩ {})
      emptyInvoiceResult).cleanDf.cols.count "__issues" = 1 :=
  ⟨rfl,
   (c5_column_order.1 ⟨["quantity"], [[("quantity", Value.str "2")]]⟩ {}
      (getOkInv (clean_invoices ⟨["quantity"], [[("quantity", Value.str "2")]]⟩ {})
        emptyInvoiceResult) rfl).1⟩

theorem cmpV_eq_iff (a b : Value) : cmpV a b = .eq ↔ a = b := by
  rcases a with _ | s | p <;> rcases b with _ | t2 | q <;> simp only [cmpV]
  all_goals try (simp; done)
  · constructor
    · intro h
      split_ifs at h with h1 h2
      all_goals first
        | exact Ordering.noConfusion h
        | exact congrArg Value.str (le_antisymm (not_lt.mp h2) (not_lt.mp h1))
    · intro h
      cases h
      simp [lt_irrefl]
  · constructor
    · intro h
      split_ifs at h with h1 h2
      all_goals first
        | exact Ordering.noConfusion h
        | exact congrArg Value.num (le_antisymm (not_lt.mp h2) (not_lt.mp h1))
    · intro h
      cases h
      simp [lt_irrefl]

theorem cmpV_gt_iff_lt (a b : Value) : cmpV a b = .gt ↔ cmpV b a = .lt := by
  rcases a with _ | s | p <;> rcases b with _ | t2 | q <;> simp only [cmpV]
  all_goals try (simp; done)
  all_goals
    constructor
    · intro h
      split_ifs at h with h1 h2
      all_goals first
        | exact Ordering.noConfusion h
        | rw [if_pos h2]
    · intro h
      split_ifs at h with h1 h2
      all_goals first
        | exact Ordering.noConfusion h
        | rw [if_neg (lt_asymm h1), if_pos h1]

theorem cmpV_lt_trans (a b c : Value) (h1 : cmpV a b = .lt) (h2 : cmpV b c = .lt) :
    cmpV a c = .lt := by
  rcases a with _ | s | p <;> rcases b with _ | t2 | q <;> rcases c with _ | u | r <;>
    simp only [cmpV] at h1 h2 ⊢ <;> try simp_all
  · exact lt_trans h1 h2
  · exact lt_trans h1 h2

theorem cmpKey_eq_iff (x y : Value × Value) : cmpKey x y = .eq ↔ x = y := by
  unfold cmpKey
  rcases hc : cmpV x.1 y.1 with _ | _ | _
  · have h1 : ¬ x.1 = y.1 := fun he => by
      rw [(cmpV_eq_iff x.1 y.1).mpr he] at hc
      exact Ordering.noConfusion hc
    simp [Prod.ext_iff, h1]
  · have h1 : x.1 = y.1 := (cmpV_eq_iff x.1 y.1).mp hc
    simp [Prod.ext_iff, h1, cmpV_eq_iff]
  · have h1 : ¬ x.1 = y.1 := fun he => by
      rw [(cmpV_eq_iff x.1 y.1).mpr he] at hc
      exact Ordering.noConfusion hc
    simp [Prod.ext_iff, h1]

theorem cmpKey_gt_iff_lt (x y : Value × Value) :
    cmpKey x y = .gt ↔ cmpKey y x = .lt := by
  unfold cmpKey
  rcases hc : cmpV x.1 y.1 with _ | _ | _
  · have hr : cmpV y.1 x.1 = .gt := (cmpV_gt_iff_lt y.1 x.1).mpr hc
    simp [hr]
  · have he : x.1 = y.1 := (cmpV_eq_iff x.1 y.1).mp hc
    have hr : cmpV y.1 x.1 = .eq := (cmpV_eq_iff y.1 x.1).mpr he.symm
    simp [hr, cmpV_gt_iff_lt]
  · have hr : cmpV y.1 x.1 = .lt := (cmpV_gt_iff_lt x.1 y.1).mp hc
    simp [hr]

theorem cmpKey_lt_trans (x y z : Value × Value) (h1 : cmpKey x y = .lt)
    (h2 : cmpKey y z = .lt) : cmpKey x z = .lt := by
  unfold cmpKey at h1 h2 ⊢
  rcases hxy : cmpV x.1 y.1 with _ | _ | _ <;> rw [hxy] at h1
  · rcases hyz : cmpV y.1 z.1 with _ | _ | _ <;> rw [hyz] at h2
    · rw [cmpV_lt_trans _ _ _ hxy hyz]
    · have he : y.1 = z.1 := (cmpV_eq_iff _ _).mp hyz
      rw [← he, hxy]
    · exact Ordering.noConfusion h2
  · have he : x.1 = y.1 := (cmpV_eq_iff _ _).mp hxy
    have h1w : cmpV x.2 y.2 = .lt := h1
    rcases hyz : cmpV y.1 z.1 with _ | _ | _ <;> rw [hyz] at h2
    · rw [he, hyz]
    · have he2 : y.1 = z.1 := (cmpV_eq_iff _ _).mp hyz
      have h2w : cmpV y.2 z.2 = .lt := h2
      have hxz : cmpV x.1 z.1 = .eq := by
        rw [he, he2]
        exact (cmpV_eq_iff _ _).mpr rfl
      rw [hxz]
      exact cmpV_lt_trans _ _ _ h1w h2w
    · exact Ordering.noConfusion h2
  · exact Ordering.noConfusion h1

theorem rowLe_total (a b : Row) : rowLe a b ∨ rowLe b a := by
  unfold rowLe
  by_cases h : cmpKey (rowKey a) (rowKey b) = .gt
  · right
    rw [(cmpKey_gt_iff_lt _ _).mp h]
    simp
  · exact Or.inl h

theorem rowLe_trans (a b c : Row) (h1 : rowLe a b) (h2 : rowLe b c) : rowLe a c := by
  unfold rowLe at h1 h2 ⊢
  intro hac
  have hca : cmpKey (rowKey c) (rowKey a) = .lt := (cmpKey_gt_iff_lt _ _).mp hac
  rcases hab : cmpKey (rowKey a) (rowKey b) with _ | _ | _
  · rcases hbc : cmpKey (rowKey b) (rowKey c) with _ | _ | _
    · have : cmpKey (rowKey a) (rowKey c) = .lt := cmpKey_lt_trans _ _ _ hab hbc
      rw [this] at hac
      exact Ordering.noConfusion hac
    · have he : rowKey b = rowKey c := (cmpKey_eq_iff _ _).mp hbc
      rw [← he] at hac
      rw [hab] at hac
      exact Ordering.noConfusion hac
    · exact h2 hbc
  · have he : rowKey a = rowKey b := (cmpKey_eq_iff _ _).mp hab
    rw [he] at hac
    exact h2 hac
  · exact h1 hab

instance : IsTotal Row rowLe := ⟨rowLe_total⟩

instance : IsTrans Row rowLe := ⟨rowLe_trans⟩

theorem filter_orderedInsert_keyEq (k : Value × Value) (x : Row) (l : List Row) :
    (List.orderedInsert rowLe x l).filter (fun r => decide (rowKey r = k)) =
      if rowKey x = k then x :: l.filter (fun r => decide (rowKey r = k))
      else l.filter (fun r => decide (rowKey r = k)) := by
  induction l with
  | nil =>
    simp only [List.orderedInsert, List.filter_cons, List.filter_nil]
    by_cases hx : rowKey x = k <;> simp [hx]
  | cons y ys ih =>
    rw [List.orderedInsert]
    by_cases hxy : rowLe x y
    · rw [if_pos hxy]
      simp only [List.filter_cons]
      by_cases hx : rowKey x = k <;> by_cases hy : rowKey y = k <;>
        simp [hx, hy]
    · have hne : rowKey x ≠ rowKey y := by
        intro he
        apply hxy
        unfold rowLe
        rw [(cmpKey_eq_iff _ _).mpr he]
        simp
      rw [if_neg hxy]
      simp only [List.filter_cons]
      by_cases hy : rowKey y = k
      · by_cases hx : rowKey x = k
        · exact absurd (hx.trans hy.symm) hne
        · rw [ih]
          simp [hx, hy]
      · rw [ih]
        by_cases hx : rowKey x = k <;> simp [hx, hy]

theorem sortRows_stable (l : List Row) (k : Value × Value) :
    (sortRows l).filter (fun r => decide (rowKey r = k)) =
      l.filter (fun r => decide (rowKey r = k)) := by
  unfold sortRows
  induction l with
  | nil => rfl
  | cons x xs ih =>
    rw [List.insertionSort, filter_orderedInsert_keyEq, ih]
    by_cases hx : rowKey x = k <;> simp [hx, List.filter_cons]

theorem sortRows_sorted (l : List Row) : (sortRows l).Sorted rowLe :=
  List.sorted_insertionSort rowLe l

/-- C4: the fuzzy deduplication pass, when its three columns are
present: after the stable ascending sort by `(customer_name,
issue_date)` (conjuncts 5 and 6: the sorted frame is ordered under the
row order and preserves the relative order of equal keys), a position
`i` is marked for removal exactly when `i ≥ 1` and row `i`'s
`total_amount` differs by at most 0.01 from row `i - 1`'s (nulls read
as 0) and the similarity score of the two `customer_name` strings
reaches the threshold (conjunct 4); the marked positions are indices
into the pre-deletion sorted frame and are deleted only after the full
scan (conjuncts 2 and 3). -/
theorem c4_fuzzy_dedup (th : ℤ) (t : Table)
    (h1 : "customer_name" ∈ t.cols) (h2 : "total_amount" ∈ t.cols)
    (h3 : "issue_date" ∈ t.cols) :
    (fuzzyPass th t).1.cols = t.cols ∧
    (fuzzyPass th t).1.rows =
      removeIdx (sortRows t.rows) (fuzzyDrops th (sortRows t.rows)) ∧
    (fuzzyPass th t).2 = (fuzzyDrops th (sortRows t.rows)).length ∧
    (∀ i, i ∈ fuzzyDrops th (sortRows t.rows) ↔
      (1 ≤ i ∧ i < (sortRows t.rows).length ∧
       |amtOr0 ((sortRows t.rows).getD i []) -
         amtOr0 ((sortRows t.rows).getD (i - 1) [])| ≤ 1 / 100 ∧
       (th : ℚ) ≤ fuzzScore
         (pyStr (Row.get ((sortRows t.rows).getD (i - 1) []) "customer_name"))
         (pyStr (Row.get ((sortRows t.rows).getD i []) "customer_name")))) ∧
    (sortRows t.rows).Sorted rowLe ∧
    (∀ k, (sortRows t.rows).filter (fun r => decide (rowKey r = k)) =
      t.rows.filter (fun r => decide (rowKey r = k))) := by
  have hguard : (["customer_name", "total_amount", "issue_date"].all
      (fun c => c ∈ t.cols)) = true := by
    simp [h1, h2, h3]
  refine ⟨?_, ?_, ?_, ?_, sortRows_sorted t.rows, fun k => sortRows_stable t.rows k⟩
  · unfold fuzzyPass
    rw [if_pos hguard]
  · unfold fuzzyPass
    rw [if_pos hguard]
  · unfold fuzzyPass
    rw [if_pos hguard]
  · intro i
    unfold fuzzyDrops
    rw [List.mem_filter, List.mem_range']
    unfold fuzzyCondB
    rw [Bool.and_eq_true, decide_eq_true_eq, decide_eq_true_eq]
    constructor
    · rintro ⟨⟨j, hj, rfl⟩, hc1, hc2⟩
      exact ⟨by omega, by omega, hc1, hc2⟩
    · rintro ⟨ha, hb, hc1, hc2⟩
      exact ⟨⟨i - 1, by omega, by omega⟩, hc1, hc2⟩

/-- Concrete instantiation of `c4_fuzzy_dedup` discharging its
column-presence hypotheses on a two-row table. -/
theorem c4_fuzzy_dedup_witness :
    ("customer_name" ∈ (⟨["customer_name", "total_amount", "issue_date"],
        [[("customer_name", Value.str "AB"), ("total_amount", Value.num 10),
          ("issue_date", Value.str "2025-01-01")],
         [("customer_name", Value.str "AB"), ("total_amount", Value.num 10),
          ("issue_date", Value.str "2025-01-01")]]⟩ : Table).cols ∧
     "total_amount" ∈ (⟨["customer_name", "total_amount", "issue_date"],
        [[("customer_name", Value.str "AB"), ("total_amount", Value.num 10),
          ("issue_date", Value.str "2025-01-01")],
         [("customer_name", Value.str "AB"), ("total_amount", Value.num 10),
          ("issue_date", Value.str "2025-01-01")]]⟩ : Table).cols ∧
     "issue_date" ∈ (⟨["customer_name", "total_amount", "issue_date"],
        [[("customer_name", Value.str "AB"), ("total_amount", Value.num 10),
          ("issue_date", Value.str "2025-01-01")],
         [("customer_name", Value.str "AB"), ("total_amount", Value.num 10),
          ("issue_date", Value.str "2025-01-01")]]⟩ : Table).cols) ∧
    (fuzzyPass 90 ⟨["customer_name", "total_amount", "issue_date"],
        [[("customer_name", Value.str "AB"), ("total_amount", Value.num 10),
          ("issue_date", Value.str "2025-01-01")],
         [("customer_name", Value.str "AB"), ("total_amount", Value.num 10),
          ("issue_date", Value.str "2025-01-01")]]⟩).1.rows =
      removeIdx
        (sortRows [[("customer_name", Value.str "AB"), ("total_amount", Value.num 10),
          ("issue_date", Value.str "2025-01-01")],
         [("customer_name", Value.str "AB"), ("total_amount", Value.num 10),
          ("issue_date", Value.str "2025-01-01")]])
        (fuzzyDrops 90
          (sortRows [[("customer_name", Value.str "AB"), ("total_amount", Value.num 10),
            ("issue_date", Value.str "2025-01-01")],
           [("customer_name", Value.str "AB"), ("total_amount", Value.num 10),
            ("issue_date", Value.str "2025-01-01")]])) :=
  ⟨⟨by decide, by decide, by decide⟩,
   (c4_fuzzy_dedup 90 ⟨["customer_name", "total_amount", "issue_date"],
      [[("customer_name", Value.str "AB"), ("total_amount", Value.num 10),
        ("issue_date", Value.str "2025-01-01")],
       [("customer_name", Value.str "AB"), ("total_amount", Value.num 10),
        ("issue_date", Value.str "2025-01-01")]]⟩
      (by decide) (by decide) (by decide)).2.1⟩
